import Mathlib

/-!
# Verification of the circular-buffer engine (`src/lua_circular_buffer.c`)

Shallow embedding of the circular time-series buffer and its operations,
translated from the C source.  Modelling conventions:

* C `double` cell values are modelled by `Val`: an explicit NaN, `+inf`,
  `-inf`, or an exact rational.  Rounding of finite IEEE arithmetic is not
  modelled; the NaN/infinity propagation rules the code relies on
  (`isnan`, `+`, `<`, `>`, `!= 0`) are modelled exactly.
* `time_t` and row-number arithmetic is carried out over mathematical
  integers (the i64 view of the data model); the C `(int)` narrowing casts
  are the identity in this model, so theorems whose content depends on row
  numbers carry explicit `< 2^31` fit hypotheses.  The implicit
  int-to-unsigned conversion in `requested_row % cb->rows` (usual C
  arithmetic conversions: `requested_row` is converted to `unsigned`)
  is modelled exactly as `emod 2^32` followed by `emod rows`.
* Nanosecond timestamps cross the boundary as Lua numbers (doubles); they
  are modelled as exact rationals and `(time_t)(ns / 1e9)` as exact
  truncation toward zero.
* The Lua boundary is modelled with `Except Unit`: `.error ()` is a raised
  Lua error (contract violation, `luaL_argcheck` / `luaL_error`), `.ok
  none` is a pushed `nil` (absent result).  Argument-validation order
  follows the C call order exactly.
* The host-side Lua delta table is modelled as the field
  `deltaLog : Int → Nat → Option Val` stored on the buffer (the
  `cb->ref` indirection into the global `circular_buffer` table collapses
  to direct storage; the global table is assumed present).
* The grid `double values[]` is a total function `Nat → Val`; indices at or
  beyond `rows*columns` correspond to memory outside the allocation and
  are never touched by the modelled operations.
-/

/-- Model of a C `double`: NaN, the two infinities, or an exact finite
value. -/
inductive Val where
  | nan : Val
  | inf : Val
  | ninf : Val
  | fin : ℚ → Val
deriving DecidableEq

/-- `isnan` on a modelled double. -/
def Val.isNan : Val → Bool
  | .nan => true
  | _ => false

/-- IEEE addition on modelled doubles (exact in the finite case). -/
def Val.add : Val → Val → Val
  | .nan, _ => .nan
  | _, .nan => .nan
  | .inf, .ninf => .nan
  | .ninf, .inf => .nan
  | .inf, _ => .inf
  | _, .inf => .inf
  | .ninf, _ => .ninf
  | _, .ninf => .ninf
  | .fin a, .fin b => .fin (a + b)

/-- IEEE negation on modelled doubles. -/
def Val.neg : Val → Val
  | .nan => .nan
  | .inf => .ninf
  | .ninf => .inf
  | .fin a => .fin (-a)

/-- IEEE subtraction on modelled doubles (`a - b`). -/
def Val.sub (a b : Val) : Val := a.add b.neg

/-- IEEE `<` on modelled doubles: any comparison with NaN is false. -/
def Val.lt : Val → Val → Bool
  | .nan, _ => false
  | _, .nan => false
  | .inf, _ => false
  | .ninf, .ninf => false
  | .ninf, _ => true
  | .fin _, .inf => true
  | .fin _, .ninf => false
  | .fin a, .fin b => decide (a < b)

/-- The `COLUMN_AGGREGATION` enum. -/
inductive Aggregation where
  | sum : Aggregation
  | min : Aggregation
  | max : Aggregation
  | none : Aggregation
deriving DecidableEq

/-- The `OUTPUT_FORMAT` enum. -/
inductive OutputFormat where
  | cbuf : OutputFormat
  | cbufd : OutputFormat
deriving DecidableEq

/-- `header_info`: per-column name, unit and aggregation method. -/
structure Header where
  name : List Char
  unit : List Char
  aggregation : Aggregation
deriving DecidableEq

/-- `struct circular_buffer`. -/
structure CB where
  current_time : Int
  seconds_per_row : Nat
  current_row : Nat
  rows : Nat
  columns : Nat
  delta : Bool
  format : OutputFormat
  headers : Nat → Header
  grid : Nat → Val
  deltaLog : Int → Nat → Option Val

/-- `get_start_time`. -/
def get_start_time (cb : CB) : Int :=
  cb.current_time - ((cb.seconds_per_row * (cb.rows - 1) : Nat) : Int)

/-- One `memcpy(g + dst, g + src, n * sizeof(double))` over the flat value
array (regions never overlap in the uses below, so the pointwise read of
the pre-state is exact). -/
def memcpyRegion (g : Nat → Val) (dst src n : Nat) : Nat → Val :=
  fun i => if dst ≤ i ∧ i < dst + n then g (src + (i - dst)) else g i

/-- The `while` loop of `copy_cleared_row`: `b` is the flat index of the
`cleared` base pointer, `rows` the remaining rows to fill, `pool` the
number of already-cleared rows at the base.  Structural recursion on an
explicit fuel (the loop clears at least one row per iteration, so
`fuel = rows` always suffices; `copy_cleared_row` passes exactly that,
making the fuel invisible to the semantics). -/
def copy_cleared_row_loop (cols b : Nat) (g : Nat → Val) (rows pool fuel : Nat) : Nat → Val :=
  match fuel with
  | 0 => g
  | fuel' + 1 =>
    if rows = 0 ∨ pool = 0 then g
    else
      let ask := if pool ≤ rows then pool else rows
      copy_cleared_row_loop cols b
        (memcpyRegion g (b + pool * cols) b (ask * cols)) (rows - ask) (pool + ask) fuel'

/-- `copy_cleared_row(cb, cleared, rows)` with `cleared = &values[b]`. -/
def copy_cleared_row (cols b : Nat) (g : Nat → Val) (rows : Nat) : Nat → Val :=
  copy_cleared_row_loop cols b g rows 1 rows

/-- The `for` loop in `clear_rows` (and `cb_new`) that NaN-fills the
`columns` cells of one physical row. -/
def clear_row_cells (g : Nat → Val) (row cols : Nat) : Nat → Val :=
  fun i => if row * cols ≤ i ∧ i < row * cols + cols then Val.nan else g i

/-- `clear_rows(cb, num_rows)`.  Faithful for `num_rows ≥ 1` (every call
site passes a positive count; for `num_rows = 0` the C `unsigned`
expression `row + num_rows - 1` would wrap where Nat subtraction
truncates). -/
def clear_rows (rows columns current_row : Nat) (num_rows0 : Nat) (g : Nat → Val) : Nat → Val :=
  let num_rows := if rows ≤ num_rows0 then rows else num_rows0
  let row := if rows ≤ current_row + 1 then 0 else current_row + 1
  let g1 := clear_row_cells g row columns
  if rows ≤ row + num_rows - 1 then
    let g2 := copy_cleared_row columns (row * columns) g1 (rows - row - 1)
    let g3 := clear_row_cells g2 0 columns
    copy_cleared_row columns 0 g3 (row + num_rows - 1 - rows)
  else
    copy_cleared_row columns (row * columns) g1 (num_rows - 1)

/-- Default column name `Column_<n>` written by `cb_new` (`snprintf` bounds
it to 15 characters plus the terminator). -/
def default_column_name (n : Nat) : List Char :=
  (("Column_" ++ toString n).toList).take 15

/-- `cb_new(rows, columns, seconds_per_row, delta)`.  `garbage` is the
uninitialised memory returned by `lua_newuserdata`; the trailing
`clear_rows(cb, rows)` overwrites all in-array cells. -/
def cb_new (rows columns seconds_per_row : Nat) (delta : Bool) (garbage : Nat → Val) : CB :=
  { current_time := ((seconds_per_row * (rows - 1) : Nat) : Int)
    seconds_per_row := seconds_per_row
    current_row := rows - 1
    rows := rows
    columns := columns
    delta := delta
    format := OutputFormat.cbuf
    headers := fun c =>
      { name := default_column_name (c + 1)
        unit := "count".toList
        aggregation := Aggregation.sum }
    grid := clear_rows rows columns (rows - 1) rows garbage
    deltaLog := fun _ _ => Option.none }

/-- Truncation of a rational toward zero, modelling a C cast of a double
to an integer type. -/
def truncQ (q : ℚ) : Int := q.num.tdiv (q.den : Int)

/-- The seconds value `t` computed at the top of `check_row` (and in
`cb_add_delta`): truncate the nanosecond timestamp to whole seconds, then
row-align it.  C `/` and `%` on signed integers truncate toward zero,
which is `Int.tdiv` / `Int.tmod`. -/
def row_time (spr : Nat) (ns : ℚ) : Int :=
  let t0 := truncQ (ns / 1000000000)
  t0 - t0.tmod (spr : Int)

/-- `requested_row` in `check_row`: the absolute row number of a
timestamp. -/
def row_number (spr : Nat) (ns : ℚ) : Int :=
  (row_time spr ns).tdiv (spr : Int)

/-- `current_row` (the absolute row number of `cb->current_time`) in
`check_row`. -/
def cur_row_number (cb : CB) : Int :=
  cb.current_time.tdiv (cb.seconds_per_row : Int)

/-- `requested_row % cb->rows` in `check_row`.  By the C usual arithmetic
conversions the `int` operand is converted to `unsigned`, so this is the
mathematically nonnegative `(rr mod 2^32) mod rows`, stored back into the
`int` variable `row` (it fits: `rows ≤ 2^31 - 1`). -/
def phys_row (rows : Nat) (rr : Int) : Int :=
  (rr.emod 4294967296).emod (rows : Int)

/-- `check_row(cb, ns, advance)`: returns the updated buffer (the C
function mutates `cb` in place) together with the `int` result, `-1`
meaning rejected. -/
def check_row (cb : CB) (ns : ℚ) (advance : Bool) : CB × Int :=
  let t := row_time cb.seconds_per_row ns
  let current_row := cur_row_number cb
  let requested_row := row_number cb.seconds_per_row ns
  let row_delta := requested_row - current_row
  let row := phys_row cb.rows requested_row
  if 0 < row_delta ∧ advance then
    ({ cb with
        grid := clear_rows cb.rows cb.columns cb.current_row row_delta.toNat cb.grid
        current_time := t
        current_row := row.toNat }, row)
  else if current_row < requested_row ∨ cb.rows ≤ row_delta.natAbs then
    (cb, -1)
  else
    (cb, row)

/-- `cb_add_delta(lua, cb, ns, column, value)`: accumulate `value` into the
delta log entry keyed by the row-aligned second of `ns` and the 0-based
column.  (The C key is `(int)t`; the narrowing cast is the identity in
this model.) -/
def cb_add_delta (cb : CB) (ns : ℚ) (column : Nat) (value : Val) : CB :=
  let t := row_time cb.seconds_per_row ns
  { cb with
      deltaLog := fun t' c' =>
        if t' = t ∧ c' = column then
          some (value.add ((cb.deltaLog t column).getD (Val.fin 0)))
        else cb.deltaLog t' c' }

/-- `cb_add(cb, ns, column, value)`.  The 1-based column argument and the
value argument are validated (in C call order) only after `check_row` has
run with advancing permitted; `varg = none` models a malformed
(non-number) value argument rejected by `luaL_checknumber`. -/
def cb_add (cb : CB) (ns : ℚ) (column1 : Int) (varg : Option Val) :
    CB × Except Unit (Option Val) :=
  let r := check_row cb ns true
  if ¬(1 ≤ column1 ∧ column1 ≤ (r.1.columns : Int)) then (r.1, Except.error ())
  else
    let column := (column1 - 1).toNat
    match varg with
    | Option.none => (r.1, Except.error ())
    | some value =>
      if r.2 ≠ -1 then
        let i := (r.2 * (r.1.columns : Int) + (column : Int)).toNat
        let newv := if (r.1.grid i).isNan then value else (r.1.grid i).add value
        let cb2 := { r.1 with grid := Function.update r.1.grid i newv }
        if cb2.delta = true ∧ value ≠ Val.fin 0 then
          let dv := if (cb2.headers column).aggregation ≠ Aggregation.sum then newv else value
          (cb_add_delta cb2 ns column dv, Except.ok (some newv))
        else
          (cb2, Except.ok (some newv))
      else (r.1, Except.ok Option.none)

/-- `cb_get(cb, ns, column)`: resolves without advancing; returns the cell
or `nil` when rejected. -/
def cb_get (cb : CB) (ns : ℚ) (column1 : Int) : CB × Except Unit (Option Val) :=
  let r := check_row cb ns false
  if ¬(1 ≤ column1 ∧ column1 ≤ (r.1.columns : Int)) then (r.1, Except.error ())
  else
    let column := (column1 - 1).toNat
    if r.2 ≠ -1 then
      (r.1, Except.ok (some (r.1.grid ((r.2 * (r.1.columns : Int) + (column : Int)).toNat))))
    else (r.1, Except.ok Option.none)

/-- `cb_set(cb, ns, column, value)`: write policy switched on the column's
aggregation method; returns `values[i]` after the switch (the old value
for a rejected Min/Max write). -/
def cb_set (cb : CB) (ns : ℚ) (column1 : Int) (varg : Option Val) :
    CB × Except Unit (Option Val) :=
  let r := check_row cb ns true
  if ¬(1 ≤ column1 ∧ column1 ≤ (r.1.columns : Int)) then (r.1, Except.error ())
  else
    let column := (column1 - 1).toNat
    match varg with
    | Option.none => (r.1, Except.error ())
    | some value =>
      if r.2 ≠ -1 then
        let i := (r.2 * (r.1.columns : Int) + (column : Int)).toNat
        let old := r.1.grid i
        match (r.1.headers column).aggregation with
        | Aggregation.min =>
          if old.isNan ∨ value.lt old then
            let cb2 := { r.1 with grid := Function.update r.1.grid i value }
            let cb3 := if cb2.delta then cb_add_delta cb2 ns column value else cb2
            (cb3, Except.ok (some value))
          else (r.1, Except.ok (some old))
        | Aggregation.max =>
          if old.isNan ∨ old.lt value then
            let cb2 := { r.1 with grid := Function.update r.1.grid i value }
            let cb3 := if cb2.delta then cb_add_delta cb2 ns column value else cb2
            (cb3, Except.ok (some value))
          else (r.1, Except.ok (some old))
        | _ =>
          let cb2 := { r.1 with grid := Function.update r.1.grid i value }
          let cb3 :=
            if cb2.delta then
              let dv :=
                if ¬old.isNan ∧ old ≠ Val.inf ∧ old ≠ Val.ninf then value.sub old else value
              cb_add_delta cb2 ns column dv
            else cb2
          (cb3, Except.ok (some value))
      else (r.1, Except.ok Option.none)

/-- Character sanitization applied to a column name by `cb_set_header`:
truncate to 15 characters, replace every non-alphanumeric character by
an underscore. -/
def sanitize_name (s : String) : List Char :=
  (s.toList.take 15).map (fun c => if c.isAlphanum then c else '_')

/-- Character sanitization applied to a unit label by `cb_set_header`:
truncate to 7 characters, keep alphanumerics, `/` and `*`, replace the
rest by underscores. -/
def sanitize_unit (s : String) : List Char :=
  (s.toList.take 7).map (fun c => if c = '/' ∨ c = '*' ∨ c.isAlphanum then c else '_')

/-- `cb_set_header(cb, column, name, unit, aggregation)`; the aggregation
keyword is validated by `luaL_checkoption` at the boundary, so it arrives
here already as a member of the enum. -/
def cb_set_header (cb : CB) (column1 : Int) (name unit : String) (agg : Aggregation) :
    CB × Except Unit Int :=
  if ¬(1 ≤ column1 ∧ column1 ≤ (cb.columns : Int)) then (cb, Except.error ())
  else
    let column := (column1 - 1).toNat
    ({ cb with
        headers := Function.update cb.headers column
          { name := sanitize_name name, unit := sanitize_unit unit, aggregation := agg } },
      Except.ok (column1))

/-- The `do { ... } while (row++ != end_row)` loop of `cb_get_range`,
with explicit fuel (the loop needs at most `rows` iterations whenever
both endpoints are physical rows in `[0, rows)`, which holds for every
accepted resolution; `cb_get_range` below passes `rows` as fuel). -/
def range_walk (g : Nat → Val) (rows cols col : Nat) : Nat → Int → Int → List Val
  | 0, _, _ => []
  | fuel + 1, row0, end_row =>
    let row := if row0 = (rows : Int) then 0 else row0
    let v := g ((row * (cols : Int) + (col : Int)).toNat)
    if row = end_row then [v]
    else v :: range_walk g rows cols col fuel (row + 1) end_row

/-- `cb_get_range(cb, column, start_ns, end_ns)` (both range arguments
given explicitly; the C defaults `get_start_time(cb)*1e9` and
`current_time*1e9` are filled in by the caller). -/
def cb_get_range (cb : CB) (column1 : Int) (start_ns end_ns : ℚ) :
    CB × Except Unit (Option (List Val)) :=
  if ¬(1 ≤ column1 ∧ column1 ≤ (cb.columns : Int)) then (cb, Except.error ())
  else
    let column := (column1 - 1).toNat
    if end_ns < start_ns then (cb, Except.error ())
    else
      let r1 := check_row cb start_ns false
      let r2 := check_row r1.1 end_ns false
      if r1.2 = -1 ∨ r2.2 = -1 then (r2.1, Except.ok Option.none)
      else
        (r2.1, Except.ok (some (range_walk r2.1.grid r2.1.rows r2.1.columns column
          r2.1.rows r1.2 r2.2)))

/-- `cb_format(cb, fmt)`: the keyword is validated by `luaL_checkoption`,
so it arrives as a member of the enum; only the output format changes. -/
def cb_format (cb : CB) (fmt : OutputFormat) : CB :=
  { cb with format := fmt }

/-- `read_time_row(&p, cb)`: the decoder first overwrites `current_time`
and `current_row` with the two integers parsed from the head of the
string (`strtoll` / `strtoul`), with no validation whatsoever.  The
token-level model receives them already split off the text. -/
def read_time_row (cb : CB) (ct : Int) (cr : Nat) : CB :=
  { cb with current_time := ct, current_row := cr }

/-- The `while (pos < len && read_double(&p, &value))` grid-filling loop of
`cb_fromstring` over the remaining token stream: returns the filled grid,
the final `pos`, and the unconsumed tokens. -/
def fill_grid (g : Nat → Val) (pos len : Nat) (vals : List Val) : (Nat → Val) × Nat × List Val :=
  if pos < len then
    match vals with
    | [] => (g, pos, [])
    | v :: rest => fill_grid (Function.update g pos v) (pos + 1) len rest
  else (g, pos, vals)

/-- The numeric content of a finite token used as a delta-row timestamp in
`cb_delta_fromstring` (`ns = value * 1e9`).  A NaN or infinite time token
would be an undefined double-to-`time_t` cast in the source; it is mapped
to second `0` here and exercised by no claim. -/
def val_time (v : Val) : ℚ :=
  match v with
  | Val.fin q => q
  | _ => 0

/-- The `while (read_double(&p, &value))` loop of `cb_delta_fromstring`:
`pos = 0` consumes a row timestamp, positions `1..columns` replay the
column deltas via `cb_add_delta`, and `pos` cycles with period
`columns + 1`. -/
def delta_fromstring_loop (cb : CB) (vals : List Val) (pos : Nat) (ns : ℚ) :
    CB × Except Unit Unit :=
  match vals with
  | [] => if pos ≠ 0 then (cb, Except.error ()) else (cb, Except.ok ())
  | v :: rest =>
    if pos = 0 then
      delta_fromstring_loop cb rest (if 0 = cb.columns then 0 else 1) (val_time v * 1000000000)
    else
      delta_fromstring_loop (cb_add_delta cb ns (pos - 1) v) rest
        (if pos = cb.columns then 0 else pos + 1) ns

/-- `cb_delta_fromstring(lua, cb, &p)`: replay trailing delta groups; a
partial trailing group raises `"fromstring() invalid delta"`. -/
def cb_delta_fromstring (cb : CB) (vals : List Val) : CB × Except Unit Unit :=
  delta_fromstring_loop cb vals 0 0

/-- `cb_fromstring(cb, s)` over the tokenised input: the leading
`current_time current_row` pair followed by the whitespace-separated
value tokens.  Errors (`luaL_error` / `lua_error`) abort immediately,
leaving the partially-mutated buffer behind. -/
def cb_fromstring (cb : CB) (ct : Int) (cr : Nat) (vals : List Val) : CB × Except Unit Unit :=
  let cb1 := read_time_row cb ct cr
  let len := cb1.rows * cb1.columns
  let f := fill_grid cb1.grid 0 len vals
  let cb2 := { cb1 with grid := f.1 }
  if f.2.1 = len then
    if cb2.delta then cb_delta_fromstring cb2 f.2.2
    else if f.2.2 ≠ [] then (cb2, Except.error ())
    else (cb2, Except.ok ())
  else (cb2, Except.error ())

/-- The state invariant maintained by the engine for every buffer built by
`cb_new` (the dimension bounds are the `luaL_argcheck` constraints of
`cb_new`; the rest is the anchor invariant of the circular mapping). -/
def CB.valid (cb : CB) : Prop :=
  2 ≤ cb.rows ∧ 1 ≤ cb.columns ∧ 1 ≤ cb.seconds_per_row ∧
  cb.current_row < cb.rows ∧
  ((cb.seconds_per_row : Int) * ((cb.rows : Int) - 1) ≤ cb.current_time) ∧
  cb.current_time.tmod (cb.seconds_per_row : Int) = 0

/-- Modelled from the spec: the naive row-by-row window-advance clear
(`advance_window` in spec section 4.1) — NaN-fill each of the
`min(num_rows_to_clear, rows)` rows immediately following the current
row, one row at a time, wrapping circularly.  Reference implementation
that `clear_rows` is compared against. -/
def naive_clear_rows (rows columns current_row : Nat) (num_rows0 : Nat) (g : Nat → Val) :
    Nat → Val :=
  (List.range (if rows ≤ num_rows0 then rows else num_rows0)).foldl
    (fun h j => clear_row_cells h ((current_row + 1 + j) % rows) columns) g

theorem memcpyRegion_nan (g : Nat → Val) (b pool ask cols : Nat) (hask : ask ≤ pool)
    (hg : ∀ i, b ≤ i → i < b + pool * cols → g i = Val.nan) :
    ∀ i, b ≤ i → i < b + (pool + ask) * cols →
      memcpyRegion g (b + pool * cols) b (ask * cols) i = Val.nan := by
  intro i hbi hub
  have h1 : ask * cols ≤ pool * cols := Nat.mul_le_mul_right _ hask
  have h2 : (pool + ask) * cols = pool * cols + ask * cols := by rw [Nat.add_mul]
  unfold memcpyRegion
  by_cases hin : b + pool * cols ≤ i ∧ i < b + pool * cols + ask * cols
  · rw [if_pos hin]
    apply hg
    · omega
    · omega
  · rw [if_neg hin]
    exact hg i hbi (by omega)

theorem copy_cleared_row_loop_base (cols b : Nat) (g : Nat → Val) (pool : Nat)
    (hg : ∀ i, b ≤ i → i < b + pool * cols → g i = Val.nan) :
    g = fun i => if b ≤ i ∧ i < b + (pool + 0) * cols then Val.nan else g i := by
  funext i
  by_cases hi : b ≤ i ∧ i < b + (pool + 0) * cols
  · rw [if_pos hi]
    exact hg i hi.1 (by simpa using hi.2)
  · rw [if_neg hi]

theorem copy_cleared_row_loop_spec (cols b : Nat) :
    ∀ (fuel n pool : Nat) (g : Nat → Val), n ≤ fuel → 1 ≤ pool →
    (∀ i, b ≤ i → i < b + pool * cols → g i = Val.nan) →
    copy_cleared_row_loop cols b g n pool fuel =
      fun i => if b ≤ i ∧ i < b + (pool + n) * cols then Val.nan else g i := by
  intro fuel
  induction fuel with
  | zero =>
    intro n pool g hfu hpool hg
    have h0 : n = 0 := by omega
    subst h0
    rw [copy_cleared_row_loop]
    exact copy_cleared_row_loop_base cols b g pool hg
  | succ fuel ih =>
    intro n pool g hfu hpool hg
    rcases Nat.eq_zero_or_pos n with h0 | h0
    · subst h0
      rw [copy_cleared_row_loop, if_pos (Or.inl rfl)]
      exact copy_cleared_row_loop_base cols b g pool hg
    · have hcond : ¬(n = 0 ∨ pool = 0) := by omega
      rw [copy_cleared_row_loop, if_neg hcond]
      simp only []
      set ask := if pool ≤ n then pool else n with hask
      have haskb : 1 ≤ ask ∧ ask ≤ n ∧ ask ≤ pool := by
        rw [hask]; split <;> omega
      have hg2 := memcpyRegion_nan g b pool ask cols haskb.2.2 hg
      rw [ih (n - ask) (pool + ask) _ (by omega) (by omega) hg2]
      funext i
      have hpa : pool + ask + (n - ask) = pool + n := by omega
      rw [hpa]
      by_cases hi : b ≤ i ∧ i < b + (pool + n) * cols
      · rw [if_pos hi, if_pos hi]
      · rw [if_neg hi, if_neg hi]
        unfold memcpyRegion
        have h2 : (pool + n) * cols = pool * cols + n * cols := by rw [Nat.add_mul]
        have h1 : ask * cols ≤ n * cols := Nat.mul_le_mul_right _ haskb.2.1
        rw [if_neg (by omega)]

theorem copy_cleared_row_spec (cols b n : Nat) (g : Nat → Val)
    (hg : ∀ i, b ≤ i → i < b + cols → g i = Val.nan) :
    copy_cleared_row cols b g n =
      fun i => if b ≤ i ∧ i < b + (1 + n) * cols then Val.nan else g i := by
  unfold copy_cleared_row
  exact copy_cleared_row_loop_spec cols b n n 1 g (le_refl n) (le_refl 1)
    (by intro i hb hub; exact hg i hb (by simpa using hub))

theorem clear_rows_spec (rows cols cr k r num : Nat) (g : Nat → Val)
    (h1 : 1 ≤ rows) (hcr : cr < rows) (hk : 1 ≤ k)
    (hr : r = if rows ≤ cr + 1 then 0 else cr + 1)
    (hnum : num = if rows ≤ k then rows else k) :
    clear_rows rows cols cr k g = fun i =>
      if (r * cols ≤ i ∧ i < (min (r + num) rows) * cols) ∨ i < (r + num - rows) * cols
      then Val.nan else g i := by
  have hrlt : r < rows := by rw [hr]; split <;> omega
  have hnumb : 1 ≤ num ∧ num ≤ rows := by rw [hnum]; split <;> omega
  simp only [clear_rows]
  rw [← hr, ← hnum]
  have hg1 : ∀ i, r * cols ≤ i → i < r * cols + cols → clear_row_cells g r cols i = Val.nan := by
    intro i ha hb
    unfold clear_row_cells
    rw [if_pos ⟨ha, hb⟩]
  by_cases hwrap : rows ≤ r + num - 1
  · rw [if_pos hwrap]
    have hrpos : 1 ≤ r := by omega
    have hspill : 1 ≤ r + num - rows := by omega
    rw [copy_cleared_row_spec cols (r * cols) (rows - r - 1) _ hg1]
    have hg3 : ∀ i, 0 ≤ i → i < 0 + cols →
        clear_row_cells (fun i => if r * cols ≤ i ∧ i < r * cols + (1 + (rows - r - 1)) * cols
          then Val.nan else clear_row_cells g r cols i) 0 cols i = Val.nan := by
      intro i ha hb
      unfold clear_row_cells
      rw [if_pos ⟨by omega, by omega⟩]
    rw [copy_cleared_row_spec cols 0 (r + num - 1 - rows) _ hg3]
    funext i
    simp only [clear_row_cells]
    have e1 : r * cols + (1 + (rows - r - 1)) * cols = rows * cols := by
      rw [← Nat.add_mul]; congr 1; omega
    have e2 : 0 + (1 + (r + num - 1 - rows)) * cols = (r + num - rows) * cols := by
      rw [Nat.zero_add]; congr 1; omega
    have e3 : min (r + num) rows = rows := by omega
    rw [e1, e2, e3]
    have l1 : cols ≤ (r + num - rows) * cols := by
      calc cols = 1 * cols := (Nat.one_mul cols).symm
      _ ≤ (r + num - rows) * cols := Nat.mul_le_mul_right _ hspill
    have l2 : r * cols + cols ≤ rows * cols := by
      calc r * cols + cols = (r + 1) * cols := by rw [Nat.add_mul, Nat.one_mul]
      _ ≤ rows * cols := Nat.mul_le_mul_right _ (by omega)
    have l3 : (r + num - rows) * cols ≤ r * cols := Nat.mul_le_mul_right _ (by omega)
    split_ifs <;> first | rfl | omega
  · rw [if_neg hwrap]
    rw [copy_cleared_row_spec cols (r * cols) (num - 1) _ hg1]
    funext i
    simp only [clear_row_cells]
    have e1 : r * cols + (1 + (num - 1)) * cols = (r + num) * cols := by
      rw [← Nat.add_mul]; congr 1; omega
    have e2 : min (r + num) rows = r + num := by omega
    have e3 : (r + num - rows) * cols = 0 * cols := by congr 1; omega
    rw [e1, e2, e3, Nat.zero_mul]
    have l2 : r * cols + cols ≤ (r + num) * cols := by
      calc r * cols + cols = (r + 1) * cols := by rw [Nat.add_mul, Nat.one_mul]
      _ ≤ (r + num) * cols := Nat.mul_le_mul_right _ (by omega)
    split_ifs <;> first | rfl | omega

theorem foldl_clear_row_cells (cols : Nat) (f : Nat → Nat) :
    ∀ (l : List Nat) (g : Nat → Val) (i : Nat),
      (l.foldl (fun h j => clear_row_cells h (f j) cols) g) i =
        if ∃ j ∈ l, f j * cols ≤ i ∧ i < f j * cols + cols then Val.nan else g i := by
  intro l
  induction l with
  | nil => intro g i; simp
  | cons a t ih =>
    intro g i
    simp only [List.foldl_cons]
    rw [ih]
    by_cases ht : ∃ j ∈ t, f j * cols ≤ i ∧ i < f j * cols + cols
    · rw [if_pos ht, if_pos (by rw [List.exists_mem_cons_iff]; exact Or.inr ht)]
    · rw [if_neg ht]
      unfold clear_row_cells
      by_cases ha : f a * cols ≤ i ∧ i < f a * cols + cols
      · rw [if_pos ha, if_pos (by rw [List.exists_mem_cons_iff]; exact Or.inl ha)]
      · rw [if_neg ha, if_neg (by
          rw [List.exists_mem_cons_iff]
          rintro (h | h)
          · exact ha h
          · exact ht h)]

theorem div_row_bounds (cols ρ i : Nat) (hc : 1 ≤ cols)
    (hlo : ρ * cols ≤ i) (hhi : i < ρ * cols + cols) : i / cols = ρ := by
  have h1 : ρ ≤ i / cols := (Nat.le_div_iff_mul_le hc).mpr hlo
  have h2 : i / cols < ρ + 1 := (Nat.div_lt_iff_lt_mul hc).mpr (by
    rw [Nat.add_mul, Nat.one_mul]; exact hhi)
  omega

theorem clear_cond_iff (rows cols cr k r num : Nat) (hc : 1 ≤ cols)
    (hcr : cr < rows) (hk : 1 ≤ k)
    (hr : r = if rows ≤ cr + 1 then 0 else cr + 1)
    (hnum : num = if rows ≤ k then rows else k) (i : Nat) :
    ((r * cols ≤ i ∧ i < (min (r + num) rows) * cols) ∨ i < (r + num - rows) * cols)
    ↔ ∃ j ∈ List.range num,
        (cr + 1 + j) % rows * cols ≤ i ∧ i < (cr + 1 + j) % rows * cols + cols := by
  have h1 : 1 ≤ rows := by omega
  have hrlt : r < rows := by rw [hr]; split <;> omega
  have hnumb : 1 ≤ num ∧ num ≤ rows := by rw [hnum]; split <;> omega
  have hrmod : r = (cr + 1) % rows := by
    rw [hr]; split
    · have : cr + 1 = rows := by omega
      rw [this, Nat.mod_self]
    · rw [Nat.mod_eq_of_lt (by omega)]
  have hmodj : ∀ j : Nat, (cr + 1 + j) % rows = (r + j) % rows := by
    intro j
    rw [hrmod]
    exact (Nat.mod_add_mod (cr + 1) rows j).symm
  constructor
  · intro hE
    have hq1 : (i / cols) * cols ≤ i := Nat.div_mul_le_self i cols
    have hq2 : i < (i / cols) * cols + cols := by
      have hdm := Nat.div_add_mod i cols
      have hml : i % cols < cols := Nat.mod_lt _ (by omega)
      have hcm : (i / cols) * cols = cols * (i / cols) := Nat.mul_comm _ _
      omega
    rcases hE with ⟨hlo, hhi⟩ | hsp
    · have hql : r ≤ i / cols := (Nat.le_div_iff_mul_le hc).mpr hlo
      have hqh : i / cols < min (r + num) rows := (Nat.div_lt_iff_lt_mul hc).mpr hhi
      have hqh2 : i / cols < r + num ∧ i / cols < rows :=
        ⟨lt_of_lt_of_le hqh (min_le_left _ _), lt_of_lt_of_le hqh (min_le_right _ _)⟩
      generalize hgen : i / cols = q at hq1 hq2 hql hqh2
      refine ⟨q - r, List.mem_range.mpr (by omega), ?_⟩
      have hrow : (cr + 1 + (q - r)) % rows = q := by
        rw [hmodj]
        have he : r + (q - r) = q := by omega
        rw [he, Nat.mod_eq_of_lt (by omega)]
      rw [hrow]
      exact ⟨hq1, hq2⟩
    · have hqh : i / cols < r + num - rows := (Nat.div_lt_iff_lt_mul hc).mpr hsp
      generalize hgen : i / cols = q at hq1 hq2 hqh
      refine ⟨q + rows - r, List.mem_range.mpr (by omega), ?_⟩
      have hrow : (cr + 1 + (q + rows - r)) % rows = q := by
        rw [hmodj]
        have he : r + (q + rows - r) = q + rows := by omega
        rw [he, Nat.add_mod_right, Nat.mod_eq_of_lt (by omega)]
      rw [hrow]
      exact ⟨hq1, hq2⟩
  · rintro ⟨j, hjm, hlo, hhi⟩
    have hj : j < num := List.mem_range.mp hjm
    rw [hmodj] at hlo hhi
    by_cases hw : r + j < rows
    · left
      rw [Nat.mod_eq_of_lt hw] at hlo hhi
      constructor
      · calc r * cols ≤ (r + j) * cols := Nat.mul_le_mul_right _ (by omega)
        _ ≤ i := hlo
      · calc i < (r + j) * cols + cols := hhi
        _ = (r + j + 1) * cols := by ring
        _ ≤ min (r + num) rows * cols := Nat.mul_le_mul_right _ (by omega)
    · right
      have hsub : (r + j) % rows = r + j - rows := by
        rw [Nat.mod_eq_sub_mod (by omega), Nat.mod_eq_of_lt (by omega)]
      rw [hsub] at hlo hhi
      calc i < (r + j - rows) * cols + cols := hhi
      _ = (r + j - rows + 1) * cols := by ring
      _ ≤ (r + num - rows) * cols := Nat.mul_le_mul_right _ (by omega)

theorem row_hit_iff (rows cols cr num : Nat) (hc : 1 ≤ cols) (h1 : 1 ≤ rows) (i : Nat) :
    (∃ j ∈ List.range num,
        (cr + 1 + j) % rows * cols ≤ i ∧ i < (cr + 1 + j) % rows * cols + cols)
    ↔ (∃ j, j < num ∧ i / cols = (cr + 1 + j) % rows ∧ i < rows * cols) := by
  constructor
  · rintro ⟨j, hjm, hlo, hhi⟩
    refine ⟨j, List.mem_range.mp hjm, div_row_bounds cols _ i hc hlo hhi, ?_⟩
    have hρ : (cr + 1 + j) % rows < rows := Nat.mod_lt _ (by omega)
    calc i < (cr + 1 + j) % rows * cols + cols := hhi
    _ = ((cr + 1 + j) % rows + 1) * cols := by ring
    _ ≤ rows * cols := Nat.mul_le_mul_right _ (by omega)
  · rintro ⟨j, hj, hdiv, hlt⟩
    refine ⟨j, List.mem_range.mpr hj, ?_, ?_⟩
    · rw [← hdiv]; exact Nat.div_mul_le_self i cols
    · rw [← hdiv]
      have hdm := Nat.div_add_mod i cols
      have hml : i % cols < cols := Nat.mod_lt _ (by omega)
      have hcm : (i / cols) * cols = cols * (i / cols) := Nat.mul_comm _ _
      omega

/-- C4: the window-advance clear (`clear_rows` with its doubling-copy
strategy) NaN-fills every cell of exactly the `min(k, rows)` rows
immediately following the current row — walking circularly, wrapping at
the physical end of the array — leaves every other grid cell unchanged,
is extensionally equal to the naive row-by-row clear, and for every
`k ≥ rows` the entire grid becomes NaN regardless of `k`. -/
theorem C4_clear_rows_correct (rows cols cr k : Nat) (g : Nat → Val)
    (h2 : 2 ≤ rows) (hc : 1 ≤ cols) (hcr : cr < rows) (hk : 1 ≤ k) :
    clear_rows rows cols cr k g = naive_clear_rows rows cols cr k g ∧
    (∀ i, (∃ j, j < min k rows ∧ i / cols = (cr + 1 + j) % rows ∧ i < rows * cols) →
      clear_rows rows cols cr k g i = Val.nan) ∧
    (∀ i, (¬∃ j, j < min k rows ∧ i / cols = (cr + 1 + j) % rows ∧ i < rows * cols) →
      clear_rows rows cols cr k g i = g i) ∧
    (rows ≤ k → ∀ i, i < rows * cols → clear_rows rows cols cr k g i = Val.nan) := by
  have h1 : (1 : Nat) ≤ rows := by omega
  set r := if rows ≤ cr + 1 then 0 else cr + 1 with hrdef
  set num := if rows ≤ k then rows else k with hnumdef
  have hmin : min k rows = num := by rw [hnumdef]; split <;> omega
  have hnumb : 1 ≤ num ∧ num ≤ rows := by rw [hnumdef]; split <;> omega
  have hspec := clear_rows_spec rows cols cr k r num g h1 hcr hk hrdef hnumdef
  have hcond := clear_cond_iff rows cols cr k r num hc hcr hk hrdef hnumdef
  have hnaive : ∀ i, naive_clear_rows rows cols cr k g i =
      if ∃ j ∈ List.range num,
          (cr + 1 + j) % rows * cols ≤ i ∧ i < (cr + 1 + j) % rows * cols + cols
      then Val.nan else g i := by
    intro i
    unfold naive_clear_rows
    rw [← hnumdef]
    exact foldl_clear_row_cells cols (fun j => (cr + 1 + j) % rows) (List.range num) g i
  refine ⟨?_, ?_, ?_, ?_⟩
  · funext i
    rw [hspec]
    simp only []
    rw [hnaive i]
    exact if_congr (hcond i) rfl rfl
  · intro i hex
    rw [hmin] at hex
    rw [hspec]
    simp only []
    rw [if_pos ((hcond i).mpr ((row_hit_iff rows cols cr num hc h1 i).mpr hex))]
  · intro i hex
    rw [hmin] at hex
    rw [hspec]
    simp only []
    rw [if_neg (fun hE =>
      hex ((row_hit_iff rows cols cr num hc h1 i).mp ((hcond i).mp hE)))]
  · intro hkr i hi
    have hnr : num = rows := by rw [hnumdef]; split <;> omega
    rw [hspec]
    simp only []
    apply if_pos
    have hrlt : r < rows := by rw [hrdef]; split <;> omega
    have emin : min (r + num) rows = rows := by omega
    rcases Nat.lt_or_ge i (r * cols) with h | h
    · right
      have e : r + num - rows = r := by omega
      rw [e]
      exact h
    · left
      rw [emin]
      exact ⟨h, hi⟩

theorem phys_row_nonneg (rows : Nat) (h : 1 ≤ rows) (rr : Int) : 0 ≤ phys_row rows rr :=
  Int.emod_nonneg _ (Int.natCast_ne_zero.mpr (by omega))

theorem phys_row_lt (rows : Nat) (h : 1 ≤ rows) (rr : Int) : phys_row rows rr < rows :=
  Int.emod_lt_of_pos _ (by exact_mod_cast h)

theorem phys_row_eq_emod (rows : Nat) (rr : Int) (h0 : 0 ≤ rr) (h1 : rr < 4294967296) :
    phys_row rows rr = rr.emod rows := by
  unfold phys_row
  rw [show rr.emod 4294967296 = rr from Int.emod_eq_of_lt h0 h1]

theorem row_time_expand (spr : Nat) (ns : ℚ) :
    row_time spr ns =
      truncQ (ns / 1000000000) - (truncQ (ns / 1000000000)).tmod (spr : Int) := rfl

theorem row_time_eq_mul (spr : Nat) (ns : ℚ) :
    row_time spr ns = (spr : Int) * ((truncQ (ns / 1000000000)).tdiv spr) := by
  rw [row_time_expand]
  have h := Int.tdiv_add_tmod (truncQ (ns / 1000000000)) (spr : Int)
  omega

theorem row_time_tmod (spr : Nat) (ns : ℚ) :
    (row_time spr ns).tmod (spr : Int) = 0 := by
  rw [row_time_eq_mul]
  exact Int.mul_tmod_right _ _

theorem row_number_eq (spr : Nat) (hs : 1 ≤ spr) (ns : ℚ) :
    row_number spr ns = (truncQ (ns / 1000000000)).tdiv spr := by
  unfold row_number
  rw [row_time_eq_mul]
  exact Int.mul_tdiv_cancel_left _ (Int.natCast_ne_zero.mpr (by omega))

theorem row_time_of_row_number (spr : Nat) (hs : 1 ≤ spr) (ns : ℚ) :
    row_time spr ns = (spr : Int) * row_number spr ns := by
  rw [row_number_eq spr hs, row_time_eq_mul]

theorem check_row_advance_eq (cb : CB) (ns : ℚ)
    (h : cur_row_number cb < row_number cb.seconds_per_row ns) :
    check_row cb ns true =
      ({ cb with
          grid := clear_rows cb.rows cb.columns cb.current_row
            (row_number cb.seconds_per_row ns - cur_row_number cb).toNat cb.grid
          current_time := row_time cb.seconds_per_row ns
          current_row := (phys_row cb.rows (row_number cb.seconds_per_row ns)).toNat },
        phys_row cb.rows (row_number cb.seconds_per_row ns)) := by
  unfold check_row
  rw [if_pos ⟨by omega, rfl⟩]

theorem check_row_reject_eq (cb : CB) (ns : ℚ) (advance : Bool)
    (hna : ¬(cur_row_number cb < row_number cb.seconds_per_row ns ∧ advance = true))
    (hrej : cur_row_number cb < row_number cb.seconds_per_row ns ∨
      cb.rows ≤ (row_number cb.seconds_per_row ns - cur_row_number cb).natAbs) :
    check_row cb ns advance = (cb, -1) := by
  unfold check_row
  rw [if_neg (by
    intro hc
    exact hna ⟨by omega, hc.2⟩), if_pos hrej]

theorem check_row_accept_eq (cb : CB) (ns : ℚ) (advance : Bool)
    (h1 : ¬(cur_row_number cb < row_number cb.seconds_per_row ns))
    (h2 : (row_number cb.seconds_per_row ns - cur_row_number cb).natAbs < cb.rows) :
    check_row cb ns advance =
      (cb, phys_row cb.rows (row_number cb.seconds_per_row ns)) := by
  unfold check_row
  rw [if_neg (by intro hc; exact h1 (by omega)), if_neg (by
    rintro (hc | hc)
    · exact h1 hc
    · omega)]

theorem phys_row_nonneg_total (rows : Nat) (rr : Int) : 0 ≤ phys_row rows rr := by
  unfold phys_row
  rcases Nat.eq_zero_or_pos rows with h | h
  · subst h
    have h1 : 0 ≤ rr.emod 4294967296 := Int.emod_nonneg _ (by norm_num)
    have h2 : (rr.emod 4294967296).emod ((0 : Nat) : Int) = rr.emod 4294967296 :=
      Int.emod_zero _
    omega
  · exact Int.emod_nonneg _ (Int.natCast_ne_zero.mpr (by omega))

theorem check_row_preserves (cb : CB) (ns : ℚ) (advance : Bool) :
    (check_row cb ns advance).1.rows = cb.rows ∧
    (check_row cb ns advance).1.columns = cb.columns ∧
    (check_row cb ns advance).1.seconds_per_row = cb.seconds_per_row ∧
    (check_row cb ns advance).1.delta = cb.delta ∧
    (check_row cb ns advance).1.headers = cb.headers ∧
    (check_row cb ns advance).1.deltaLog = cb.deltaLog ∧
    (check_row cb ns advance).1.format = cb.format := by
  unfold check_row
  dsimp only []
  split
  · exact ⟨rfl, rfl, rfl, rfl, rfl, rfl, rfl⟩
  · split
    · exact ⟨rfl, rfl, rfl, rfl, rfl, rfl, rfl⟩
    · exact ⟨rfl, rfl, rfl, rfl, rfl, rfl, rfl⟩

theorem check_row_state_of_not_advance (cb : CB) (ns : ℚ) (advance : Bool)
    (h : ¬(cur_row_number cb < row_number cb.seconds_per_row ns ∧ advance = true)) :
    (check_row cb ns advance).1 = cb := by
  unfold check_row
  rw [if_neg (fun hx => h ⟨by omega, hx.2⟩)]
  split <;> rfl

theorem check_row_no_advance (cb : CB) (ns : ℚ) : (check_row cb ns false).1 = cb :=
  check_row_state_of_not_advance cb ns false (by simp)

theorem check_row_reject_state (cb : CB) (ns : ℚ) (advance : Bool)
    (h : (check_row cb ns advance).2 = -1) : (check_row cb ns advance).1 = cb := by
  by_cases hc1 : cur_row_number cb < row_number cb.seconds_per_row ns ∧ advance = true
  · exfalso
    rw [hc1.2] at h
    rw [check_row_advance_eq cb ns hc1.1] at h
    · have := phys_row_nonneg_total cb.rows (row_number cb.seconds_per_row ns)
      simp only [] at h
      omega
  · exact check_row_state_of_not_advance cb ns advance hc1

theorem check_row_result_bounds (cb : CB) (ns : ℚ) (advance : Bool) (h : 1 ≤ cb.rows) :
    (check_row cb ns advance).2 = -1 ∨
    (0 ≤ (check_row cb ns advance).2 ∧ (check_row cb ns advance).2 < (cb.rows : Int)) := by
  unfold check_row
  dsimp only []
  split
  · right
    exact ⟨phys_row_nonneg_total _ _, phys_row_lt _ h _⟩
  · split
    · left; rfl
    · right
      exact ⟨phys_row_nonneg_total _ _, phys_row_lt _ h _⟩

theorem cur_row_number_ge (cb : CB) (hv : cb.valid) :
    (cb.rows : Int) - 1 ≤ cur_row_number cb := by
  obtain ⟨h2, hc, hs, hcr, hct, hal⟩ := hv
  unfold cur_row_number
  have hnn : (0 : Int) ≤ cb.current_time := by
    have hm : (0 : Int) ≤ (cb.seconds_per_row : Int) * ((cb.rows : Int) - 1) :=
      mul_nonneg (by positivity) (by omega)
    exact le_trans hm hct
  rw [Int.tdiv_eq_ediv hnn (by positivity)]
  have hsne : ((cb.seconds_per_row : Int)) ≠ 0 := Int.natCast_ne_zero.mpr (by omega)
  calc (cb.rows : Int) - 1
      = ((cb.seconds_per_row : Int) * ((cb.rows : Int) - 1)) / (cb.seconds_per_row : Int) :=
        (Int.mul_ediv_cancel_left _ hsne).symm
  _ ≤ cb.current_time / (cb.seconds_per_row : Int) :=
        Int.ediv_le_ediv (by exact_mod_cast Nat.lt_of_lt_of_le Nat.zero_lt_one hs) hct

theorem check_row_valid (cb : CB) (ns : ℚ) (advance : Bool) (hv : cb.valid) :
    (check_row cb ns advance).1.valid := by
  by_cases hc1 : cur_row_number cb < row_number cb.seconds_per_row ns ∧ advance = true
  · have hcr2 := cur_row_number_ge cb hv
    obtain ⟨h2, hcle, hs, hcr, hct, hal⟩ := hv
    rw [hc1.2]
    rw [check_row_advance_eq cb ns hc1.1]
    have hlt := phys_row_lt cb.rows (by omega) (row_number cb.seconds_per_row ns)
    have h0 := phys_row_nonneg_total cb.rows (row_number cb.seconds_per_row ns)
    have hrt := row_time_of_row_number cb.seconds_per_row hs ns
    have hrr : (cb.rows : Int) ≤ row_number cb.seconds_per_row ns := by omega
    refine ⟨h2, hcle, hs, by simp only []; omega, ?_, ?_⟩
    · simp only []
      rw [hrt]
      have : ((cb.rows : Int) - 1) ≤ row_number cb.seconds_per_row ns := by omega
      exact mul_le_mul_of_nonneg_left this (by positivity)
    · simp only []
      exact row_time_tmod _ _
  · rw [check_row_state_of_not_advance cb ns advance hc1]
    exact hv

theorem accepted_row_number_nonneg (cb : CB) (ns : ℚ) (hv : cb.valid)
    (hno : ¬(cur_row_number cb < row_number cb.seconds_per_row ns ∨
      cb.rows ≤ (row_number cb.seconds_per_row ns - cur_row_number cb).natAbs)) :
    0 ≤ row_number cb.seconds_per_row ns := by
  have hge := cur_row_number_ge cb hv
  have h2 := hv.1
  push_neg at hno
  omega

/-- C1: `check_row` first truncates the nanosecond timestamp to whole
seconds and row-aligns it; if the requested row number exceeds the
current row number and advancing is permitted, the window advances,
`current_time` becomes the aligned time and the physical row is the
requested row number mod `rows`; otherwise the request is rejected
exactly when the requested row number is greater than the current one or
the absolute row-number difference is at least `rows`, and accepted
(returning requested row number mod `rows`) in all other cases; a
rejected `add`/`set`/`get` is a no-op returning nil. -/
theorem C1_check_row_resolution (cb : CB) (ns : ℚ) (advance : Bool) (hv : cb.valid)
    (hfit : row_number cb.seconds_per_row ns < 2147483648) :
    (row_time cb.seconds_per_row ns).tmod (cb.seconds_per_row : Int) = 0 ∧
    (cur_row_number cb < row_number cb.seconds_per_row ns ∧ advance = true →
      check_row cb ns advance =
        ({ cb with
            grid := clear_rows cb.rows cb.columns cb.current_row
              (row_number cb.seconds_per_row ns - cur_row_number cb).toNat cb.grid
            current_time := row_time cb.seconds_per_row ns
            current_row := ((row_number cb.seconds_per_row ns).emod (cb.rows : Int)).toNat },
          (row_number cb.seconds_per_row ns).emod (cb.rows : Int))) ∧
    (¬(cur_row_number cb < row_number cb.seconds_per_row ns ∧ advance = true) →
      ((check_row cb ns advance).2 = -1 ↔
        (cur_row_number cb < row_number cb.seconds_per_row ns ∨
          cb.rows ≤ (row_number cb.seconds_per_row ns - cur_row_number cb).natAbs)) ∧
      (¬(cur_row_number cb < row_number cb.seconds_per_row ns ∨
          cb.rows ≤ (row_number cb.seconds_per_row ns - cur_row_number cb).natAbs) →
        check_row cb ns advance =
          (cb, (row_number cb.seconds_per_row ns).emod (cb.rows : Int)))) ∧
    (∀ (column1 : Int) (v : Val), (check_row cb ns true).2 = -1 →
      1 ≤ column1 → column1 ≤ (cb.columns : Int) →
      cb_add cb ns column1 (some v) = (cb, Except.ok Option.none) ∧
      cb_set cb ns column1 (some v) = (cb, Except.ok Option.none)) ∧
    (∀ column1 : Int, (check_row cb ns false).2 = -1 →
      1 ≤ column1 → column1 ≤ (cb.columns : Int) →
      cb_get cb ns column1 = (cb, Except.ok Option.none)) := by
  have hge := cur_row_number_ge cb hv
  have h2 := hv.1
  refine ⟨row_time_tmod _ _, ?_, ?_, ?_, ?_⟩
  · rintro ⟨hlt, hadv⟩
    rw [hadv, check_row_advance_eq cb ns hlt,
      phys_row_eq_emod cb.rows _ (by omega) (by omega)]
  · intro hna
    constructor
    · constructor
      · intro hrej
        by_contra hno
        rw [check_row_accept_eq cb ns advance (fun hx => hno (Or.inl hx))
          (by push_neg at hno; omega)] at hrej
        have hnn : 0 ≤ row_number cb.seconds_per_row ns :=
          accepted_row_number_nonneg cb ns hv hno
        rw [phys_row_eq_emod cb.rows _ hnn (by omega)] at hrej
        have hrne : ((cb.rows : Int)) ≠ 0 := by
          have : cb.rows ≠ 0 := by omega
          exact_mod_cast this
        have hrej2 : row_number cb.seconds_per_row ns % (cb.rows : Int) = -1 := hrej
        have := Int.emod_nonneg (row_number cb.seconds_per_row ns) hrne
        omega
      · intro hrej
        exact (check_row_reject_eq cb ns advance hna hrej).symm ▸ rfl
    · intro hno
      have hnn : 0 ≤ row_number cb.seconds_per_row ns :=
        accepted_row_number_nonneg cb ns hv hno
      rw [check_row_accept_eq cb ns advance (fun hx => hno (Or.inl hx))
        (by push_neg at hno; omega)]
      rw [phys_row_eq_emod cb.rows _ hnn (by omega)]
  · intro column1 v hrej h1c h2c
    have hst := check_row_reject_state cb ns true hrej
    have hcol : (1 ≤ column1 ∧ column1 ≤ ((check_row cb ns true).1.columns : Int)) := by
      rw [hst]; exact ⟨h1c, h2c⟩
    constructor
    · simp only [cb_add]
      rw [if_neg (not_not_intro hcol), hrej]
      simp only [ne_eq, not_true_eq_false, if_false, hst]
    · simp only [cb_set]
      rw [if_neg (not_not_intro hcol), hrej]
      simp only [ne_eq, not_true_eq_false, if_false, hst]
  · intro column1 hrej h1c h2c
    have hst := check_row_no_advance cb ns
    have hcol : (1 ≤ column1 ∧ column1 ≤ ((check_row cb ns false).1.columns : Int)) := by
      rw [hst]; exact ⟨h1c, h2c⟩
    simp only [cb_get]
    rw [if_neg (not_not_intro hcol), hrej]
    simp only [ne_eq, not_true_eq_false, if_false, hst]

theorem flat_index_bound (rows cols : Nat) (r : Int) (col : Nat)
    (h0 : 0 ≤ r) (h1 : r < (rows : Int)) (hc : col < cols) :
    (r * (cols : Int) + (col : Int)).toNat < rows * cols := by
  have e1 : r * (cols : Int) ≤ ((rows : Int) - 1) * cols :=
    mul_le_mul_of_nonneg_right (by omega) (by positivity)
  have e2 : ((rows : Int) - 1) * cols + cols = (rows : Int) * cols := by ring
  have e3 : ((rows * cols : Nat) : Int) = (rows : Int) * cols := by push_cast; ring
  have e4 : ((col : Int)) < (cols : Int) := by exact_mod_cast hc
  have e5 : (0 : Int) ≤ r * (cols : Int) := mul_nonneg h0 (by positivity)
  omega

/-- C10: for every nanosecond timestamp (negative and far-out-of-window
ones included), row resolution returns either the rejection sentinel `-1`
or a physical row in `[0, rows)`, and therefore the flat grid index
`row * columns + column` computed by `cb_get`/`cb_add`/`cb_set` — and by
the `cb_get_range` walk after its wrap of `rows` to `0` — stays below
`rows * columns`. -/
theorem C10_row_resolution_bounds (cb : CB) (ns : ℚ) (advance : Bool) (h1 : 1 ≤ cb.rows) :
    ((check_row cb ns advance).2 = -1 ∨
      (0 ≤ (check_row cb ns advance).2 ∧ (check_row cb ns advance).2 < (cb.rows : Int))) ∧
    (∀ column : Nat, column < cb.columns → (check_row cb ns advance).2 ≠ -1 →
      ((check_row cb ns advance).2 * (cb.columns : Int) + (column : Int)).toNat <
        cb.rows * cb.columns) ∧
    (∀ row : Int, 0 ≤ row → row ≤ (cb.rows : Int) → ∀ column : Nat, column < cb.columns →
      ((if row = (cb.rows : Int) then 0 else row) * (cb.columns : Int) + (column : Int)).toNat <
        cb.rows * cb.columns) := by
  have hb := check_row_result_bounds cb ns advance h1
  refine ⟨hb, ?_, ?_⟩
  · intro column hcol hne
    rcases hb with h | h
    · exact absurd h hne
    · exact flat_index_bound cb.rows cb.columns _ column h.1 h.2 hcol
  · intro row hr0 hrle column hcol
    by_cases hw : row = (cb.rows : Int)
    · rw [if_pos hw]
      exact flat_index_bound cb.rows cb.columns 0 column le_rfl (by omega) hcol
    · rw [if_neg hw]
      exact flat_index_bound cb.rows cb.columns row column hr0 (by omega) hcol

theorem cb_add_valid (cb : CB) (ns : ℚ) (c1 : Int) (v : Option Val) (hv : cb.valid) :
    (cb_add cb ns c1 v).1.valid := by
  have hcv := check_row_valid cb ns true hv
  unfold cb_add
  dsimp only []
  repeat' split
  all_goals exact hcv

theorem cb_set_valid (cb : CB) (ns : ℚ) (c1 : Int) (v : Option Val) (hv : cb.valid) :
    (cb_set cb ns c1 v).1.valid := by
  have hcv := check_row_valid cb ns true hv
  unfold cb_set
  dsimp only []
  repeat' split
  all_goals exact hcv

theorem cb_get_valid (cb : CB) (ns : ℚ) (c1 : Int) (hv : cb.valid) :
    (cb_get cb ns c1).1.valid := by
  have hcv := check_row_valid cb ns false hv
  unfold cb_get
  dsimp only []
  repeat' split
  all_goals exact hcv

theorem cb_get_range_valid (cb : CB) (c1 : Int) (s e : ℚ) (hv : cb.valid) :
    (cb_get_range cb c1 s e).1.valid := by
  have hcv := check_row_valid (check_row cb s false).1 e false
    (check_row_valid cb s false hv)
  unfold cb_get_range
  dsimp only []
  repeat' split
  all_goals first | exact hv | exact hcv

theorem cb_set_header_valid (cb : CB) (c1 : Int) (n u : String) (a : Aggregation)
    (hv : cb.valid) : (cb_set_header cb c1 n u a).1.valid := by
  unfold cb_set_header
  dsimp only []
  repeat' split
  all_goals exact hv

theorem cb_format_valid (cb : CB) (f : OutputFormat) (hv : cb.valid) :
    (cb_format cb f).valid := hv

theorem cb_new_valid (rows cols spr : Nat) (delta : Bool) (g : Nat → Val)
    (h2 : 2 ≤ rows) (hc : 1 ≤ cols) (hs : 1 ≤ spr) :
    (cb_new rows cols spr delta g).valid := by
  unfold cb_new CB.valid
  dsimp only []
  refine ⟨h2, hc, hs, by omega, ?_, ?_⟩
  · rw [Nat.cast_mul, Nat.cast_sub (by omega : 1 ≤ rows), Nat.cast_one]
  · rw [Nat.cast_mul, Nat.cast_sub (by omega : 1 ≤ rows), Nat.cast_one]
    exact Int.mul_tmod_right _ _

theorem truncQ_intCast (t : Int) : truncQ ((t : ℚ)) = t := by
  unfold truncQ
  rw [Rat.num_intCast, Rat.den_intCast, Nat.cast_one, Int.tdiv_one]

theorem ns_of_seconds (t : Int) : truncQ (((t : ℚ) * 1000000000) / 1000000000) = t := by
  rw [mul_div_cancel_right₀ _ (by norm_num : (1000000000 : ℚ) ≠ 0), truncQ_intCast]

theorem row_time_of_aligned (spr : Nat) (t : Int) (h : t.tmod (spr : Int) = 0) :
    row_time spr ((t : ℚ) * 1000000000) = t := by
  rw [row_time_expand, ns_of_seconds, h, sub_zero]

theorem row_number_of_aligned (spr : Nat) (t : Int) (h : t.tmod (spr : Int) = 0) :
    row_number spr ((t : ℚ) * 1000000000) = t.tdiv (spr : Int) := by
  unfold row_number
  rw [row_time_of_aligned spr t h]

/-- The concrete "uninitialised memory" used by witnesses. -/
def gex : Nat → Val := fun _ => Val.fin 99

/-- C7 (amended): the anchor invariant `0 ≤ current_row < rows`,
`current_time` row-aligned and at least `seconds_per_row*(rows-1)`, holds
after construction and is preserved by `add`, `set`, `get`, `get_range`,
`set_header` and `format`; under it the row of `get_start_time` resolves
(is not rejected) while one row earlier is rejected, so `get_start_time`
is the oldest representable time.  (`fromstring` is excluded: it
overwrites `current_time`/`current_row` with unvalidated decoded values,
which is the counterexample to the claim as stated.) -/
theorem C7_invariants_amended :
    (∀ (rows cols spr : Nat) (delta : Bool) (g : Nat → Val),
      2 ≤ rows → 1 ≤ cols → 1 ≤ spr → (cb_new rows cols spr delta g).valid) ∧
    (∀ (cb : CB) (ns : ℚ) (c1 : Int) (v : Option Val), cb.valid →
      (cb_add cb ns c1 v).1.valid) ∧
    (∀ (cb : CB) (ns : ℚ) (c1 : Int) (v : Option Val), cb.valid →
      (cb_set cb ns c1 v).1.valid) ∧
    (∀ (cb : CB) (ns : ℚ) (c1 : Int), cb.valid → (cb_get cb ns c1).1.valid) ∧
    (∀ (cb : CB) (c1 : Int) (s e : ℚ), cb.valid → (cb_get_range cb c1 s e).1.valid) ∧
    (∀ (cb : CB) (c1 : Int) (n u : String) (a : Aggregation), cb.valid →
      (cb_set_header cb c1 n u a).1.valid) ∧
    (∀ (cb : CB) (f : OutputFormat), cb.valid → (cb_format cb f).valid) ∧
    (∀ cb : CB, cb.valid →
      cb.current_row < cb.rows ∧
      cb.current_time.tmod (cb.seconds_per_row : Int) = 0 ∧
      (check_row cb ((get_start_time cb : ℚ) * 1000000000) false).2 ≠ -1 ∧
      (check_row cb (((get_start_time cb - (cb.seconds_per_row : Int) : Int) : ℚ)
        * 1000000000) false).2 = -1) := by
  refine ⟨cb_new_valid, cb_add_valid, cb_set_valid, cb_get_valid, cb_get_range_valid,
    cb_set_header_valid, cb_format_valid, ?_⟩
  intro cb hv
  have hge := cur_row_number_ge cb hv
  obtain ⟨h2, hc, hs, hcr, hct, hal⟩ := hv
  have hsne : ((cb.seconds_per_row : Int)) ≠ 0 := by
    have : cb.seconds_per_row ≠ 0 := by omega
    exact_mod_cast this
  have hct_eq : cb.current_time = (cb.seconds_per_row : Int) * cur_row_number cb := by
    have h := Int.tdiv_add_tmod cb.current_time (cb.seconds_per_row : Int)
    unfold cur_row_number
    omega
  have hcast : ((cb.seconds_per_row * (cb.rows - 1) : Nat) : Int)
      = (cb.seconds_per_row : Int) * ((cb.rows : Int) - 1) := by
    rw [Nat.cast_mul, Nat.cast_sub (by omega : 1 ≤ cb.rows), Nat.cast_one]
  have hstart : get_start_time cb
      = (cb.seconds_per_row : Int) * (cur_row_number cb - ((cb.rows : Int) - 1)) := by
    unfold get_start_time
    rw [hcast, hct_eq]
    ring
  refine ⟨hcr, hal, ?_, ?_⟩
  · have htm : (get_start_time cb).tmod (cb.seconds_per_row : Int) = 0 := by
      rw [hstart]
      exact Int.mul_tmod_right _ _
    have hrn : row_number cb.seconds_per_row ((get_start_time cb : ℚ) * 1000000000)
        = cur_row_number cb - ((cb.rows : Int) - 1) := by
      rw [row_number_of_aligned cb.seconds_per_row _ htm, hstart]
      exact Int.mul_tdiv_cancel_left _ hsne
    rw [check_row_accept_eq cb _ false (by rw [hrn]; omega) (by rw [hrn]; omega)]
    have hnn := phys_row_nonneg_total cb.rows
      (row_number cb.seconds_per_row ((get_start_time cb : ℚ) * 1000000000))
    intro heq
    simp only [] at heq
    omega
  · have hstart2 : get_start_time cb - (cb.seconds_per_row : Int)
        = (cb.seconds_per_row : Int) * (cur_row_number cb - ((cb.rows : Int) - 1) - 1) := by
      rw [hstart]
      ring
    have htm2 : (get_start_time cb - (cb.seconds_per_row : Int)).tmod
        (cb.seconds_per_row : Int) = 0 := by
      rw [hstart2]
      exact Int.mul_tmod_right _ _
    have hrn2 : row_number cb.seconds_per_row
        (((get_start_time cb - (cb.seconds_per_row : Int) : Int) : ℚ) * 1000000000)
        = cur_row_number cb - ((cb.rows : Int) - 1) - 1 := by
      rw [row_number_of_aligned cb.seconds_per_row _ htm2, hstart2]
      exact Int.mul_tdiv_cancel_left _ hsne
    rw [check_row_reject_eq cb _ false (by simp) (by rw [hrn2]; right; omega)]

/-- C7 counterexample: `fromstring` copies the decoded `current_time` and
`current_row` into the buffer with no validation, so a successful decode
can leave `current_row ≥ rows` and `current_time` not row-aligned, in
violation of the claimed invariant. -/
theorem C7_fromstring_breaks_invariant :
    (cb_fromstring (cb_new 3 1 2 false gex) 5 7 [Val.fin 1, Val.fin 2, Val.fin 3]).2 =
      Except.ok () ∧
    ¬((cb_fromstring (cb_new 3 1 2 false gex) 5 7
        [Val.fin 1, Val.fin 2, Val.fin 3]).1.current_row <
      (cb_fromstring (cb_new 3 1 2 false gex) 5 7 [Val.fin 1, Val.fin 2, Val.fin 3]).1.rows) ∧
    (cb_fromstring (cb_new 3 1 2 false gex) 5 7
        [Val.fin 1, Val.fin 2, Val.fin 3]).1.current_time.tmod
      (((cb_fromstring (cb_new 3 1 2 false gex) 5 7
        [Val.fin 1, Val.fin 2, Val.fin 3]).1.seconds_per_row : Nat) : Int) ≠ 0 := by
  refine ⟨rfl, by decide, by decide⟩

theorem C7_invariants_amended_witness :
    (cb_new 3 1 1 false gex).valid ∧
    (cb_add (cb_new 3 1 1 false gex) 0 1 (some (Val.fin 5))).1.valid :=
  ⟨C7_invariants_amended.1 3 1 1 false gex (by norm_num) (by norm_num) (by norm_num),
   C7_invariants_amended.2.1 (cb_new 3 1 1 false gex) 0 1 (some (Val.fin 5))
     (C7_invariants_amended.1 3 1 1 false gex (by norm_num) (by norm_num) (by norm_num))⟩

theorem C1_check_row_resolution_witness :
    (row_time (cb_new 3 1 1 false gex).seconds_per_row (((5 : Int) : ℚ) * 1000000000)).tmod
      ((cb_new 3 1 1 false gex).seconds_per_row : Int) = 0 :=
  (C1_check_row_resolution (cb_new 3 1 1 false gex) (((5 : Int) : ℚ) * 1000000000) false
    (by unfold CB.valid; decide)
    (by rw [show (cb_new 3 1 1 false gex).seconds_per_row = 1 from rfl,
          row_number_of_aligned 1 5 (by decide)]
        decide)).1

theorem C4_clear_rows_correct_witness :
    clear_rows 3 1 2 2 gex = naive_clear_rows 3 1 2 2 gex :=
  (C4_clear_rows_correct 3 1 2 2 gex (by norm_num) (by norm_num) (by norm_num)
    (by norm_num)).1

theorem C10_row_resolution_bounds_witness :
    (check_row (cb_new 3 1 1 false gex) (-5000000000 : ℚ) false).2 = -1 ∨
      (0 ≤ (check_row (cb_new 3 1 1 false gex) (-5000000000 : ℚ) false).2 ∧
        (check_row (cb_new 3 1 1 false gex) (-5000000000 : ℚ) false).2 <
          ((cb_new 3 1 1 false gex).rows : Int)) :=
  (C10_row_resolution_bounds (cb_new 3 1 1 false gex) (-5000000000) false (by decide)).1

theorem cb_add_error_state (cb : CB) (ns : ℚ) (column1 : Int) (varg : Option Val)
    (h : (cb_add cb ns column1 varg).2 = Except.error ()) :
    (cb_add cb ns column1 varg).1 = (check_row cb ns true).1 := by
  revert h
  simp only [cb_add]
  repeat' split
  all_goals intro h
  all_goals first | rfl | simp at h

theorem cb_set_error_state (cb : CB) (ns : ℚ) (column1 : Int) (varg : Option Val)
    (h : (cb_set cb ns column1 varg).2 = Except.error ()) :
    (cb_set cb ns column1 varg).1 = (check_row cb ns true).1 := by
  revert h
  simp only [cb_set]
  repeat' split
  all_goals intro h
  all_goals first | rfl | simp at h

/-- C5 (amended): when `add` or `set` reports a contract violation
(out-of-range column or malformed value), no cell write and no delta
record has happened — the resulting state is exactly the state left by
row resolution with advancing permitted; in particular, when the
timestamp does not advance the window the state is fully unchanged.  The
window advance itself, however, happens before argument validation, so a
violating call with a future timestamp does mutate
`current_time`/`current_row` and clears rows (the counterexample to the
claim as stated). -/
theorem C5_violation_leaves_only_advance (cb : CB) (ns : ℚ) (column1 : Int)
    (varg : Option Val) :
    ((cb_add cb ns column1 varg).2 = Except.error () →
      (cb_add cb ns column1 varg).1 = (check_row cb ns true).1) ∧
    ((cb_set cb ns column1 varg).2 = Except.error () →
      (cb_set cb ns column1 varg).1 = (check_row cb ns true).1) ∧
    (¬(cur_row_number cb < row_number cb.seconds_per_row ns) →
      ((cb_add cb ns column1 varg).2 = Except.error () →
        (cb_add cb ns column1 varg).1 = cb) ∧
      ((cb_set cb ns column1 varg).2 = Except.error () →
        (cb_set cb ns column1 varg).1 = cb)) := by
  have hst : ∀ advance, ¬(cur_row_number cb < row_number cb.seconds_per_row ns) →
      (check_row cb ns advance).1 = cb := fun adv hna =>
    check_row_state_of_not_advance cb ns adv (fun hx => hna hx.1)
  refine ⟨cb_add_error_state cb ns column1 varg, cb_set_error_state cb ns column1 varg,
    fun hna => ⟨?_, ?_⟩⟩
  · intro h
    rw [cb_add_error_state cb ns column1 varg h, hst true hna]
  · intro h
    rw [cb_set_error_state cb ns column1 varg h, hst true hna]

/-- C5 counterexample: on a fresh `rows=3, columns=1, seconds_per_row=1`
buffer (`current_time = 2`, `current_row = 2`), the call
`add(4e9 ns, column=2, 1)` reports the out-of-range-column contract
violation — but only after `check_row` has already advanced the window:
`current_time` has become `4` and `current_row` has become `1`, so the
buffer state is not unchanged. -/
theorem C5_violation_mutates_state_counterexample :
    (cb_add (cb_new 3 1 1 false gex) (4000000000 : ℚ) 2 (some (Val.fin 1))).2 =
      Except.error () ∧
    (cb_new 3 1 1 false gex).current_time = 2 ∧
    (cb_add (cb_new 3 1 1 false gex) (4000000000 : ℚ) 2 (some (Val.fin 1))).1.current_time
      = 4 ∧
    (cb_new 3 1 1 false gex).current_row = 2 ∧
    (cb_add (cb_new 3 1 1 false gex) (4000000000 : ℚ) 2 (some (Val.fin 1))).1.current_row
      = 1 := by
  refine ⟨by with_unfolding_all exact rfl, by decide, ?_, by decide, ?_⟩
  · with_unfolding_all decide
  · with_unfolding_all decide

theorem C5_violation_leaves_only_advance_witness :
    (cb_add (cb_new 3 1 1 false gex) (4000000000 : ℚ) 2 (some (Val.fin 1))).1 =
      (check_row (cb_new 3 1 1 false gex) (4000000000 : ℚ) true).1 :=
  (C5_violation_leaves_only_advance (cb_new 3 1 1 false gex) 4000000000 2
    (some (Val.fin 1))).1 (by with_unfolding_all exact rfl)

/-- The buffer state after the C6 scenario's two `add` calls on a fresh
`rows=3, columns=1, seconds_per_row=1` buffer. -/
def c6_buf : CB :=
  (cb_add ((cb_add (cb_new 3 1 1 false gex) 0 1 (some (Val.fin 5))).1)
    2000000000 1 (some (Val.fin 7))).1

/-- C6 counterexample: on the fresh `rows=3, columns=1, seconds_per_row=1`
buffer, `current_time` starts at `seconds_per_row*(rows-1) = 2`, so
`add(t=2e9 ns, ...)` writes the current row and advances nothing — and
`get(t=0ns)` then returns `5`, not absent: the row has not aged out. -/
theorem C6_scenario_counterexample :
    c6_buf.current_time = (cb_new 3 1 1 false gex).current_time ∧
    (cb_get c6_buf 0 1).2 = Except.ok (some (Val.fin 5)) ∧
    (cb_get c6_buf 0 1).2 ≠ Except.ok Option.none := by
  have hget : (cb_get c6_buf 0 1).2 = Except.ok (some (Val.fin 5)) := by
    with_unfolding_all exact rfl
  refine ⟨by with_unfolding_all decide, hget, fun h => ?_⟩
  rw [hget] at h
  simp at h

/-- C6 (amended): on a freshly created buffer with `rows=3, columns=1,
seconds_per_row=1` (whose `current_time` is already `2` seconds), the
sequence `add(t=0ns, col=1, 5)` then `add(t=2000000000ns, col=1, 7)` does
not advance the window at all; afterwards `get(t=0ns, col=1)` returns `5`
(the row is still inside the window) while `get(t=2000000000ns, col=1)`
returns `7`. -/
theorem C6_scenario_amended :
    (cb_add (cb_new 3 1 1 false gex) 0 1 (some (Val.fin 5))).2 =
      Except.ok (some (Val.fin 5)) ∧
    (cb_add ((cb_add (cb_new 3 1 1 false gex) 0 1 (some (Val.fin 5))).1)
      2000000000 1 (some (Val.fin 7))).2 = Except.ok (some (Val.fin 7)) ∧
    c6_buf.current_time = 2 ∧
    (cb_get c6_buf 0 1).2 = Except.ok (some (Val.fin 5)) ∧
    (cb_get c6_buf 2000000000 1).2 = Except.ok (some (Val.fin 7)) := by
  refine ⟨by with_unfolding_all exact rfl, by with_unfolding_all exact rfl,
    by with_unfolding_all decide, by with_unfolding_all exact rfl,
    by with_unfolding_all exact rfl⟩

theorem cb_add_unfold (cb : CB) (ns : ℚ) (column1 : Int) (value : Val)
    (hcol : 1 ≤ column1 ∧ column1 ≤ ((check_row cb ns true).1.columns : Int))
    (hacc : (check_row cb ns true).2 ≠ -1) :
    cb_add cb ns column1 (some value) =
      (let r := check_row cb ns true
       let column := (column1 - 1).toNat
       let i := (r.2 * (r.1.columns : Int) + (column : Int)).toNat
       let newv := if (r.1.grid i).isNan then value else (r.1.grid i).add value
       let cb2 := { r.1 with grid := Function.update r.1.grid i newv }
       if cb2.delta = true ∧ value ≠ Val.fin 0 then
         (cb_add_delta cb2 ns column
            (if (cb2.headers column).aggregation ≠ Aggregation.sum then newv else value),
          Except.ok (some newv))
       else (cb2, Except.ok (some newv))) := by
  simp only [cb_add]
  rw [if_neg (not_not_intro hcol), if_pos hacc]

/-- The buffer state after the C2 delta-accounting scenario: two `add`
calls of `3` and `4` at the same timestamp on a delta-enabled buffer
whose column 1 has the default `Sum` aggregation. -/
def c2_buf : CB :=
  (cb_add ((cb_add (cb_new 3 1 1 true gex) 0 1 (some (Val.fin 3))).1) 0 1
    (some (Val.fin 4))).1

/-- C2: an accepted `add` sets a NaN cell to `value` and otherwise adds
`value` to it, returns the new cell value, and — when delta tracking is
enabled and `value != 0` — accumulates into the delta log a delta equal
to `value` for a `Sum` column and to the new cell total otherwise;
repeated recordings for the same timestamp/column accumulate, so two
adds of `3` and `4` at one timestamp on a `Sum` column leave a cell of
`7` and a single delta-log entry of `7`. -/
theorem C2_add_semantics (cb : CB) (ns : ℚ) (column1 : Int) (value : Val)
    (h1c : 1 ≤ column1) (h2c : column1 ≤ (cb.columns : Int))
    (hacc : (check_row cb ns true).2 ≠ -1) :
    (∃ i : Nat, ∃ newv : Val,
      i = ((check_row cb ns true).2 * (((check_row cb ns true).1.columns : Nat) : Int)
        + (((column1 - 1).toNat : Nat) : Int)).toNat ∧
      newv = (if ((check_row cb ns true).1.grid i).isNan then value
              else ((check_row cb ns true).1.grid i).add value) ∧
      (cb_add cb ns column1 (some value)).2 = Except.ok (some newv) ∧
      (cb_add cb ns column1 (some value)).1.grid =
        Function.update (check_row cb ns true).1.grid i newv ∧
      (cb.delta = true ∧ value ≠ Val.fin 0 →
        (cb_add cb ns column1 (some value)).1.deltaLog =
          fun t' c' =>
            if t' = row_time cb.seconds_per_row ns ∧ c' = (column1 - 1).toNat then
              some ((if (cb.headers ((column1 - 1).toNat)).aggregation ≠ Aggregation.sum
                      then newv else value).add
                ((cb.deltaLog (row_time cb.seconds_per_row ns)
                  ((column1 - 1).toNat)).getD (Val.fin 0)))
            else cb.deltaLog t' c') ∧
      (¬(cb.delta = true ∧ value ≠ Val.fin 0) →
        (cb_add cb ns column1 (some value)).1.deltaLog = cb.deltaLog)) ∧
    c2_buf.grid 0 = Val.fin 7 ∧
    c2_buf.deltaLog 0 0 = some (Val.fin 7) ∧
    (∀ (t : Int) (c : Nat), ¬(t = 0 ∧ c = 0) → c2_buf.deltaLog t c = Option.none) := by
  have hp := check_row_preserves cb ns true
  have hcol : 1 ≤ column1 ∧ column1 ≤ ((check_row cb ns true).1.columns : Int) :=
    ⟨h1c, by rw [hp.2.1]; exact h2c⟩
  have hu := cb_add_unfold cb ns column1 value hcol hacc
  refine ⟨⟨_, _, rfl, rfl, ?_, ?_, ?_, ?_⟩, ?_, ?_, ?_⟩
  · rw [hu]
    dsimp only []
    split
    · rfl
    · rfl
  · rw [hu]
    dsimp only []
    split
    · rfl
    · rfl
  · intro hd
    rw [hu]
    dsimp only []
    rw [if_pos ⟨by rw [hp.2.2.2.1]; exact hd.1, hd.2⟩]
    simp only [cb_add_delta]
    rw [hp.2.2.1, hp.2.2.2.2.1, hp.2.2.2.2.2.1]
  · intro hd
    rw [hu]
    dsimp only []
    rw [if_neg (fun hx => hd ⟨by rw [← hp.2.2.2.1]; exact hx.1, hx.2⟩)]
    dsimp only []
    exact hp.2.2.2.2.2.1
  · with_unfolding_all decide
  · with_unfolding_all decide
  · have hlog : c2_buf.deltaLog = fun t' c' =>
        if t' = 0 ∧ c' = 0 then some (Val.fin 7)
        else if t' = 0 ∧ c' = 0 then some (Val.fin 3) else Option.none := by
      with_unfolding_all exact rfl
    intro t c h
    rw [hlog]
    dsimp only []
    rw [if_neg h, if_neg h]

/-- The pure delta-log update performed by `cb_add_delta`: create the row
for `t` if absent and accumulate `value` onto the existing column entry
(absent entries read as `0`, as `lua_tonumber(nil)` does). -/
def delta_update (log : Int → Nat → Option Val) (t : Int) (column : Nat) (value : Val) :
    Int → Nat → Option Val :=
  fun t' c' =>
    if t' = t ∧ c' = column then some (value.add ((log t column).getD (Val.fin 0)))
    else log t' c'

theorem cb_add_delta_log (cb : CB) (ns : ℚ) (column : Nat) (value : Val) :
    (cb_add_delta cb ns column value).deltaLog =
      delta_update cb.deltaLog (row_time cb.seconds_per_row ns) column value := rfl

theorem val_lt_asymm (a b : Val) (h : Val.lt a b = true) : Val.lt b a = false := by
  cases a <;> cases b <;> simp [Val.lt] at *
  exact le_of_lt h

theorem val_lt_irrefl (a : Val) : Val.lt a a = false := by
  cases a <;> simp [Val.lt]

theorem cb_set_unfold (cb : CB) (ns : ℚ) (column1 : Int) (value : Val)
    (hcol : 1 ≤ column1 ∧ column1 ≤ ((check_row cb ns true).1.columns : Int))
    (hacc : (check_row cb ns true).2 ≠ -1) :
    cb_set cb ns column1 (some value) =
      (let r := check_row cb ns true
       let column := (column1 - 1).toNat
       let i := (r.2 * (r.1.columns : Int) + (column : Int)).toNat
       let old := r.1.grid i
       match (r.1.headers column).aggregation with
       | Aggregation.min =>
         if old.isNan ∨ value.lt old then
           let cb2 := { r.1 with grid := Function.update r.1.grid i value }
           let cb3 := if cb2.delta then cb_add_delta cb2 ns column value else cb2
           (cb3, Except.ok (some value))
         else (r.1, Except.ok (some old))
       | Aggregation.max =>
         if old.isNan ∨ old.lt value then
           let cb2 := { r.1 with grid := Function.update r.1.grid i value }
           let cb3 := if cb2.delta then cb_add_delta cb2 ns column value else cb2
           (cb3, Except.ok (some value))
         else (r.1, Except.ok (some old))
       | _ =>
         let cb2 := { r.1 with grid := Function.update r.1.grid i value }
         let cb3 :=
           if cb2.delta then
             let dv :=
               if ¬old.isNan ∧ old ≠ Val.inf ∧ old ≠ Val.ninf then value.sub old else value
             cb_add_delta cb2 ns column dv
           else cb2
         (cb3, Except.ok (some value))) := by
  simp only [cb_set]
  rw [if_neg (not_not_intro hcol), if_pos hacc]

/-- C3: an accepted `set` follows the column's aggregation policy: a
`Min` column accepts the write only if the cell is NaN or `value < old`,
a `Max` column only if the cell is NaN or `value > old` (both record the
raw `value` as the delta when tracking is enabled); `Sum` and `None`
columns always overwrite, recording `value - old` when `old` is finite
and `value` itself otherwise; `set` returns the resulting cell value —
the unchanged `old` for a rejected `Min`/`Max` write — so a `Max` cell
never decreases and a `Min` cell never increases once finite. -/
theorem C3_set_semantics (cb : CB) (ns : ℚ) (column1 : Int) (value : Val)
    (h1c : 1 ≤ column1) (h2c : column1 ≤ (cb.columns : Int))
    (hacc : (check_row cb ns true).2 ≠ -1) :
    ∃ i : Nat, ∃ old : Val,
      i = ((check_row cb ns true).2 * (((check_row cb ns true).1.columns : Nat) : Int)
        + (((column1 - 1).toNat : Nat) : Int)).toNat ∧
      old = (check_row cb ns true).1.grid i ∧
      ((cb.headers ((column1 - 1).toNat)).aggregation = Aggregation.min →
        ((old.isNan = true ∨ value.lt old = true →
          (cb_set cb ns column1 (some value)).2 = Except.ok (some value) ∧
          (cb_set cb ns column1 (some value)).1.grid =
            Function.update (check_row cb ns true).1.grid i value ∧
          (cb.delta = true →
            (cb_set cb ns column1 (some value)).1.deltaLog =
              delta_update cb.deltaLog (row_time cb.seconds_per_row ns)
                ((column1 - 1).toNat) value) ∧
          (cb.delta = false →
            (cb_set cb ns column1 (some value)).1.deltaLog = cb.deltaLog)) ∧
        (¬(old.isNan = true ∨ value.lt old = true) →
          cb_set cb ns column1 (some value) =
            ((check_row cb ns true).1, Except.ok (some old))))) ∧
      ((cb.headers ((column1 - 1).toNat)).aggregation = Aggregation.max →
        ((old.isNan = true ∨ old.lt value = true →
          (cb_set cb ns column1 (some value)).2 = Except.ok (some value) ∧
          (cb_set cb ns column1 (some value)).1.grid =
            Function.update (check_row cb ns true).1.grid i value ∧
          (cb.delta = true →
            (cb_set cb ns column1 (some value)).1.deltaLog =
              delta_update cb.deltaLog (row_time cb.seconds_per_row ns)
                ((column1 - 1).toNat) value) ∧
          (cb.delta = false →
            (cb_set cb ns column1 (some value)).1.deltaLog = cb.deltaLog)) ∧
        (¬(old.isNan = true ∨ old.lt value = true) →
          cb_set cb ns column1 (some value) =
            ((check_row cb ns true).1, Except.ok (some old))))) ∧
      ((cb.headers ((column1 - 1).toNat)).aggregation = Aggregation.sum ∨
        (cb.headers ((column1 - 1).toNat)).aggregation = Aggregation.none →
        (cb_set cb ns column1 (some value)).2 = Except.ok (some value) ∧
        (cb_set cb ns column1 (some value)).1.grid =
          Function.update (check_row cb ns true).1.grid i value ∧
        (cb.delta = true →
          (cb_set cb ns column1 (some value)).1.deltaLog =
            delta_update cb.deltaLog (row_time cb.seconds_per_row ns)
              ((column1 - 1).toNat)
              (if ¬old.isNan = true ∧ old ≠ Val.inf ∧ old ≠ Val.ninf then value.sub old
               else value)) ∧
        (cb.delta = false →
          (cb_set cb ns column1 (some value)).1.deltaLog = cb.deltaLog)) ∧
      ((cb.headers ((column1 - 1).toNat)).aggregation = Aggregation.max →
        old.isNan = false →
        Val.lt ((cb_set cb ns column1 (some value)).1.grid i) old = false) ∧
      ((cb.headers ((column1 - 1).toNat)).aggregation = Aggregation.min →
        old.isNan = false →
        Val.lt old ((cb_set cb ns column1 (some value)).1.grid i) = false) := by
  have hp := check_row_preserves cb ns true
  have hcol : 1 ≤ column1 ∧ column1 ≤ ((check_row cb ns true).1.columns : Int) :=
    ⟨h1c, by rw [hp.2.1]; exact h2c⟩
  have hu := cb_set_unfold cb ns column1 value hcol hacc
  refine ⟨_, _, rfl, rfl, ?_, ?_, ?_, ?_, ?_⟩
  · intro hagg
    constructor
    · intro hcond
      rw [hu]
      dsimp only []
      rw [hp.2.2.2.2.1, hagg]
      dsimp only []
      rw [if_pos hcond]
      refine ⟨rfl, ?_, ?_, ?_⟩
      · split
        · rfl
        · rfl
      · intro hdel
        rw [if_pos (show ((check_row cb ns true).1.delta = true) from by
          rw [hp.2.2.2.1]; exact hdel)]
        rw [cb_add_delta_log]
        rw [hp.2.2.1, hp.2.2.2.2.2.1]
      · intro hdel
        rw [if_neg (show ¬((check_row cb ns true).1.delta = true) from by
          rw [hp.2.2.2.1, hdel]; exact Bool.false_ne_true)]
        exact hp.2.2.2.2.2.1
    · intro hcond
      rw [hu]
      dsimp only []
      rw [hp.2.2.2.2.1, hagg]
      dsimp only []
      rw [if_neg hcond]
  · intro hagg
    constructor
    · intro hcond
      rw [hu]
      dsimp only []
      rw [hp.2.2.2.2.1, hagg]
      dsimp only []
      rw [if_pos hcond]
      refine ⟨rfl, ?_, ?_, ?_⟩
      · split
        · rfl
        · rfl
      · intro hdel
        rw [if_pos (show ((check_row cb ns true).1.delta = true) from by
          rw [hp.2.2.2.1]; exact hdel)]
        rw [cb_add_delta_log]
        rw [hp.2.2.1, hp.2.2.2.2.2.1]
      · intro hdel
        rw [if_neg (show ¬((check_row cb ns true).1.delta = true) from by
          rw [hp.2.2.2.1, hdel]; exact Bool.false_ne_true)]
        exact hp.2.2.2.2.2.1
    · intro hcond
      rw [hu]
      dsimp only []
      rw [hp.2.2.2.2.1, hagg]
      dsimp only []
      rw [if_neg hcond]
  · intro hagg
    rcases hagg with hagg | hagg
    all_goals (
      rw [hu]
      dsimp only []
      rw [hp.2.2.2.2.1, hagg]
      dsimp only []
      refine ⟨rfl, ?_, ?_, ?_⟩)
    all_goals first
    | (split
       · rfl
       · rfl)
    | (intro hdel
       first
       | (rw [if_pos (show ((check_row cb ns true).1.delta = true) from by
            rw [hp.2.2.2.1]; exact hdel)]
          rw [cb_add_delta_log]
          rw [hp.2.2.1, hp.2.2.2.2.2.1])
       | (rw [if_neg (show ¬((check_row cb ns true).1.delta = true) from by
            rw [hp.2.2.2.1, hdel]; exact Bool.false_ne_true)]
          exact hp.2.2.2.2.2.1))
  · intro hagg hnan
    by_cases hcond : ((check_row cb ns true).1.grid
        (((check_row cb ns true).2 * (((check_row cb ns true).1.columns : Nat) : Int)
          + (((column1 - 1).toNat : Nat) : Int)).toNat)).isNan = true ∨
        Val.lt ((check_row cb ns true).1.grid
          (((check_row cb ns true).2 * (((check_row cb ns true).1.columns : Nat) : Int)
            + (((column1 - 1).toNat : Nat) : Int)).toNat)) value = true
    · have hlt : Val.lt ((check_row cb ns true).1.grid
          (((check_row cb ns true).2 * (((check_row cb ns true).1.columns : Nat) : Int)
            + (((column1 - 1).toNat : Nat) : Int)).toNat)) value = true := by
        rcases hcond with h | h
        · rw [hnan] at h; cases h
        · exact h
      rw [hu]
      dsimp only []
      rw [hp.2.2.2.2.1, hagg]
      dsimp only []
      rw [if_pos hcond]
      dsimp only []
      split
      · show Val.lt (Function.update (check_row cb ns true).1.grid _ value _) _ = false
        rw [Function.update_same]
        exact val_lt_asymm _ _ hlt
      · show Val.lt (Function.update (check_row cb ns true).1.grid _ value _) _ = false
        rw [Function.update_same]
        exact val_lt_asymm _ _ hlt
    · rw [hu]
      dsimp only []
      rw [hp.2.2.2.2.1, hagg]
      dsimp only []
      rw [if_neg hcond]
      exact val_lt_irrefl _
  · intro hagg hnan
    by_cases hcond : ((check_row cb ns true).1.grid
        (((check_row cb ns true).2 * (((check_row cb ns true).1.columns : Nat) : Int)
          + (((column1 - 1).toNat : Nat) : Int)).toNat)).isNan = true ∨
        Val.lt value ((check_row cb ns true).1.grid
          (((check_row cb ns true).2 * (((check_row cb ns true).1.columns : Nat) : Int)
            + (((column1 - 1).toNat : Nat) : Int)).toNat)) = true
    · have hlt : Val.lt value ((check_row cb ns true).1.grid
          (((check_row cb ns true).2 * (((check_row cb ns true).1.columns : Nat) : Int)
            + (((column1 - 1).toNat : Nat) : Int)).toNat)) = true := by
        rcases hcond with h | h
        · rw [hnan] at h; cases h
        · exact h
      rw [hu]
      dsimp only []
      rw [hp.2.2.2.2.1, hagg]
      dsimp only []
      rw [if_pos hcond]
      dsimp only []
      split
      · show Val.lt _ (Function.update (check_row cb ns true).1.grid _ value _) = false
        rw [Function.update_same]
        exact val_lt_asymm _ _ hlt
      · show Val.lt _ (Function.update (check_row cb ns true).1.grid _ value _) = false
        rw [Function.update_same]
        exact val_lt_asymm _ _ hlt
    · rw [hu]
      dsimp only []
      rw [hp.2.2.2.2.1, hagg]
      dsimp only []
      rw [if_neg hcond]
      exact val_lt_irrefl _

theorem C2_add_semantics_witness : c2_buf.grid 0 = Val.fin 7 :=
  (C2_add_semantics (cb_new 3 1 1 true gex) 0 1 (Val.fin 3) (by norm_num) (by decide)
    (by with_unfolding_all decide)).2.1

theorem C3_set_semantics_witness :
    (cb_set (cb_new 3 1 1 false gex) 0 1 (some (Val.fin 5))).2 =
      Except.ok (some (Val.fin 5)) := by
  obtain ⟨i, old, hi, hold, hmin, hmax, hsum, hmm, hmn⟩ :=
    C3_set_semantics (cb_new 3 1 1 false gex) 0 1 (Val.fin 5) (by norm_num) (by decide)
      (by with_unfolding_all decide)
  have hagg : ((cb_new 3 1 1 false gex).headers ((1 - 1 : Int).toNat)).aggregation =
      Aggregation.sum := rfl
  exact (hsum (Or.inl hagg)).1

theorem fill_grid_spec : ∀ (vals : List Val) (g : Nat → Val) (pos len : Nat), pos ≤ len →
    fill_grid g pos len vals =
      (fun i => if pos ≤ i ∧ i < min (pos + vals.length) len then vals.getD (i - pos) Val.nan
                else g i,
       min (pos + vals.length) len,
       vals.drop (len - pos)) := by
  intro vals
  induction vals with
  | nil =>
    intro g pos len hpl
    rw [fill_grid]
    have h1 : min (pos + List.length ([] : List Val)) len = pos := by simp; omega
    refine Prod.ext ?_ (Prod.ext ?_ ?_)
    · simp only []
      split
      · funext i
        rw [h1]
        rw [if_neg (by omega)]
      · funext i
        rw [h1]
        rw [if_neg (by omega)]
    · simp only []
      split
      · exact h1.symm
      · exact h1.symm
    · simp only []
      split
      · simp
      · simp
  | cons v rest ih =>
    intro g pos len hpl
    rw [fill_grid]
    by_cases hlt : pos < len
    · rw [if_pos hlt]
      rw [ih (Function.update g pos v) (pos + 1) len (by omega)]
      have e1 : min (pos + 1 + rest.length) len = min (pos + (v :: rest).length) len := by
        simp only [List.length_cons]
        omega
      refine Prod.ext ?_ (Prod.ext ?_ ?_)
      · simp only []
        funext i
        rw [e1]
        by_cases hi : pos ≤ i ∧ i < min (pos + (v :: rest).length) len
        · rw [if_pos hi]
          rcases Nat.eq_or_lt_of_le hi.1 with he | hlt2
          · subst he
            rw [if_neg (by omega), Function.update_same, Nat.sub_self]
            rfl
          · rw [if_pos ⟨by omega, by omega⟩]
            have e2 : i - pos = (i - (pos + 1)) + 1 := by omega
            rw [e2]
            rfl
        · rw [if_neg hi, if_neg (by omega)]
          rw [Function.update_noteq (by omega)]
      · simp only []
        rw [e1]
      · simp only []
        have e3 : len - pos = (len - (pos + 1)) + 1 := by omega
        rw [e3]
        rfl
    · rw [if_neg hlt]
      have hpe : pos = len := by omega
      refine Prod.ext ?_ (Prod.ext ?_ ?_)
      · simp only []
        funext i
        rw [if_neg (by simp only [min_def]; split <;> omega)]
      · simp only []
        simp only [min_def]
        split <;> omega
      · simp only []
        rw [show len - pos = 0 from by omega]
        rfl

theorem cb_add_delta_columns (cb : CB) (ns : ℚ) (c : Nat) (v : Val) :
    (cb_add_delta cb ns c v).columns = cb.columns := rfl

theorem delta_loop_ok_iff : ∀ (vals : List Val) (cb : CB) (pos : Nat) (ns : ℚ),
    1 ≤ cb.columns → pos ≤ cb.columns →
    ((delta_fromstring_loop cb vals pos ns).2 = Except.ok () ↔
      (pos + vals.length) % (cb.columns + 1) = 0) := by
  intro vals
  induction vals with
  | nil =>
    intro cb pos ns hc hpc
    rw [delta_fromstring_loop]
    simp only [List.length_nil, Nat.add_zero]
    by_cases h0 : pos = 0
    · subst h0
      rw [if_neg (by omega)]
      simp
    · rw [if_pos h0]
      rw [Nat.mod_eq_of_lt (by omega : pos < cb.columns + 1)]
      constructor
      · intro h
        cases h
      · intro h
        exact absurd h h0
  | cons v rest ih =>
    intro cb pos ns hc hpc
    rw [delta_fromstring_loop]
    simp only [List.length_cons]
    by_cases h0 : pos = 0
    · subst h0
      rw [if_pos rfl]
      rw [ih cb (if 0 = cb.columns then 0 else 1) (val_time v * 1000000000) hc
        (by split <;> omega)]
      rw [if_neg (by omega)]
      rw [show 0 + (rest.length + 1) = 1 + rest.length from by omega]
    · rw [if_neg h0]
      rw [ih (cb_add_delta cb ns (pos - 1) v) (if pos = cb.columns then 0 else pos + 1) ns
        (by rw [cb_add_delta_columns]; exact hc)
        (by rw [cb_add_delta_columns]; split <;> omega)]
      rw [cb_add_delta_columns]
      by_cases hw : pos = cb.columns
      · rw [if_pos hw]
        rw [hw, show cb.columns + (rest.length + 1) = (cb.columns + 1) + rest.length from
          by omega, Nat.add_mod_left, Nat.zero_add]
      · rw [if_neg hw]
        rw [show pos + (rest.length + 1) = (pos + 1) + rest.length from by omega]

theorem cb_add_delta_spr (cb : CB) (ns : ℚ) (c : Nat) (v : Val) :
    (cb_add_delta cb ns c v).seconds_per_row = cb.seconds_per_row := rfl

theorem row_time_int (spr : Nat) (t : Int) :
    row_time spr ((t : ℚ) * 1000000000) = t - t.tmod (spr : Int) := by
  rw [row_time_expand, ns_of_seconds]

theorem delta_loop_group_log : ∀ (ds : List Val) (cb : CB) (pos : Nat) (ns : ℚ),
    1 ≤ pos → pos + ds.length = cb.columns + 1 →
    ∀ c, c < cb.columns →
    (delta_fromstring_loop cb ds pos ns).1.deltaLog (row_time cb.seconds_per_row ns) c =
      (if pos - 1 ≤ c ∧ c < pos - 1 + ds.length then
        some ((ds.getD (c - (pos - 1)) Val.nan).add
          ((cb.deltaLog (row_time cb.seconds_per_row ns) c).getD (Val.fin 0)))
      else cb.deltaLog (row_time cb.seconds_per_row ns) c) := by
  intro ds
  induction ds with
  | nil =>
    intro cb pos ns hp hsum c hcc
    simp only [List.length_nil] at hsum
    rw [delta_fromstring_loop, if_pos (by omega : pos ≠ 0)]
    rw [if_neg (by simp only [List.length_nil]; omega)]
  | cons v rest ih =>
    intro cb pos ns hp hsum c hcc
    simp only [List.length_cons] at hsum
    rw [delta_fromstring_loop]
    rw [if_neg (by omega : ¬pos = 0)]
    by_cases hw : pos = cb.columns
    · have hre : rest = [] := List.eq_nil_of_length_eq_zero (by omega)
      subst hre
      rw [if_pos hw]
      rw [delta_fromstring_loop]
      rw [if_neg (by omega)]
      rw [cb_add_delta_log]
      unfold delta_update
      by_cases hce : c = pos - 1
      · rw [if_pos ⟨rfl, hce⟩]
        rw [if_pos (by simp only [List.length_cons, List.length_nil]; omega)]
        rw [hce, Nat.sub_self]
        rfl
      · rw [if_neg (fun hx => hce hx.2)]
        rw [if_neg (by simp only [List.length_cons, List.length_nil]; omega)]
    · rw [if_neg hw]
      have hih := ih (cb_add_delta cb ns (pos - 1) v) (pos + 1) ns (by omega)
        (by rw [cb_add_delta_columns]; omega) c (by rw [cb_add_delta_columns]; exact hcc)
      rw [cb_add_delta_spr, cb_add_delta_log] at hih
      rw [hih]
      simp only [Nat.add_sub_cancel]
      by_cases hc1 : pos ≤ c ∧ c < pos + rest.length
      · rw [if_pos hc1]
        unfold delta_update
        rw [if_neg (fun hx => absurd hx.2 (by omega))]
        rw [if_pos (by simp only [List.length_cons]; omega)]
        rw [show c - (pos - 1) = (c - pos) + 1 from by omega]
        rfl
      · rw [if_neg hc1]
        unfold delta_update
        by_cases hce : c = pos - 1
        · rw [if_pos ⟨rfl, hce⟩]
          rw [if_pos (by simp only [List.length_cons]; omega)]
          rw [hce, Nat.sub_self]
          rfl
        · rw [if_neg (fun hx => hce hx.2)]
          rw [if_neg (by simp only [List.length_cons]; omega)]

theorem delta_loop_grid : ∀ (vals : List Val) (cb : CB) (pos : Nat) (ns : ℚ),
    (delta_fromstring_loop cb vals pos ns).1.grid = cb.grid := by
  intro vals
  induction vals with
  | nil =>
    intro cb pos ns
    rw [delta_fromstring_loop]
    split <;> rfl
  | cons v rest ih =>
    intro cb pos ns
    rw [delta_fromstring_loop]
    split
    · exact ih cb _ _
    · exact (ih _ _ _).trans rfl

theorem except_unit_not_ok (e : Except Unit Unit) (h : ¬e = Except.ok ()) :
    e = Except.error () := by
  cases e with
  | error a =>
    cases a
    rfl
  | ok a =>
    cases a
    exact absurd rfl h

theorem cb_delta_fromstring_ok_iff (cb : CB) (vals : List Val) (n : Nat)
    (hn : cb.columns = n) (hc : 1 ≤ n) :
    ((cb_delta_fromstring cb vals).2 = Except.ok ()) ↔ vals.length % (n + 1) = 0 := by
  subst hn
  unfold cb_delta_fromstring
  rw [delta_loop_ok_iff vals cb 0 0 hc (Nat.zero_le _), Nat.zero_add]

theorem delta_group_replay (cb : CB) (tv : Val) (ds : List Val)
    (hc : 1 ≤ cb.columns) (hds : ds.length = cb.columns) :
    (cb_delta_fromstring cb (tv :: ds)).2 = Except.ok () ∧
    ∀ c, c < cb.columns →
      (cb_delta_fromstring cb (tv :: ds)).1.deltaLog
          (row_time cb.seconds_per_row (val_time tv * 1000000000)) c =
        some ((ds.getD c Val.nan).add
          ((cb.deltaLog (row_time cb.seconds_per_row (val_time tv * 1000000000)) c).getD
            (Val.fin 0))) := by
  unfold cb_delta_fromstring
  rw [delta_fromstring_loop, if_pos rfl, if_neg (by omega : ¬(0 = cb.columns))]
  constructor
  · rw [delta_loop_ok_iff ds cb 1 _ hc hc]
    rw [hds, Nat.add_comm, Nat.mod_self]
  · intro c hcc
    rw [delta_loop_group_log ds cb 1 _ (le_refl 1) (by omega) c hcc]
    rw [if_pos (by omega)]
    simp only [Nat.sub_self, Nat.sub_zero]

/-- C9: `fromstring` decoding accepts exactly the well-formed element
counts: with `delta` disabled the value list must have exactly
`rows*columns` entries (one fewer and one more are both errors); with
`delta` enabled at least `rows*columns` entries are needed and the
trailing entries must form complete timestamp-plus-`columns` groups (a
short trailing group is an error, and each complete group is replayed
into the delta log); on success the grid is populated in row-major
order. -/
theorem C9_fromstring_count (cb : CB) (ct : Int) (cr : Nat) (vals : List Val)
    (hr : 1 ≤ cb.rows) (hc : 1 ≤ cb.columns) :
    (cb.delta = false →
      ((cb_fromstring cb ct cr vals).2 = Except.ok () ↔
        vals.length = cb.rows * cb.columns)) ∧
    (cb.delta = true →
      ((cb_fromstring cb ct cr vals).2 = Except.ok () ↔
        cb.rows * cb.columns ≤ vals.length ∧
          (vals.length - cb.rows * cb.columns) % (cb.columns + 1) = 0)) ∧
    ((cb_fromstring cb ct cr vals).2 = Except.ok () →
      ∀ i, i < cb.rows * cb.columns →
        (cb_fromstring cb ct cr vals).1.grid i = vals.getD i Val.nan) ∧
    (vals.length = cb.rows * cb.columns - 1 →
      (cb_fromstring cb ct cr vals).2 = Except.error ()) ∧
    (vals.length = cb.rows * cb.columns + 1 →
      (cb_fromstring cb ct cr vals).2 = Except.error ()) ∧
    (cb.delta = true → ∀ (tv : Val) (ds : List Val),
      ds.length = cb.columns → vals.length = cb.rows * cb.columns →
      ((cb_fromstring cb ct cr (vals ++ tv :: ds)).2 = Except.ok () ∧
        ∀ c, c < cb.columns →
          (cb_fromstring cb ct cr (vals ++ tv :: ds)).1.deltaLog
              (row_time cb.seconds_per_row (val_time tv * 1000000000)) c =
            some ((ds.getD c Val.nan).add
              ((cb.deltaLog (row_time cb.seconds_per_row (val_time tv * 1000000000)) c).getD
                (Val.fin 0))))) := by
  have hlen1 : 1 ≤ cb.rows * cb.columns := Nat.mul_pos hr hc
  refine ⟨?_, ?_, ?_, ?_, ?_, ?_⟩
  · intro hd
    unfold cb_fromstring read_time_row
    dsimp only []
    rw [fill_grid_spec vals _ 0 _ (Nat.zero_le _)]
    dsimp only []
    simp only [Nat.zero_add, Nat.sub_zero]
    rw [hd]
    simp only [Bool.false_eq_true, if_false]
    by_cases hlen : min vals.length (cb.rows * cb.columns) = cb.rows * cb.columns
    · rw [if_pos hlen]
      by_cases hdr : vals.drop (cb.rows * cb.columns) = []
      · rw [if_neg (not_not_intro hdr)]
        have h1 : cb.rows * cb.columns ≤ vals.length := by omega
        have h2 : vals.length ≤ cb.rows * cb.columns := by
          have := List.drop_eq_nil_iff.mp hdr
          omega
        constructor
        · intro _
          omega
        · intro _
          rfl
      · rw [if_pos hdr]
        constructor
        · intro h
          cases h
        · intro h
          exfalso
          exact hdr (List.drop_eq_nil_iff.mpr (by omega))
    · rw [if_neg hlen]
      constructor
      · intro h
        cases h
      · intro h
        exfalso
        omega
  · intro hd
    unfold cb_fromstring read_time_row
    dsimp only []
    rw [fill_grid_spec vals _ 0 _ (Nat.zero_le _)]
    dsimp only []
    simp only [Nat.zero_add, Nat.sub_zero]
    rw [hd]
    simp only [if_true]
    by_cases hlen : min vals.length (cb.rows * cb.columns) = cb.rows * cb.columns
    · rw [if_pos hlen]
      rw [cb_delta_fromstring_ok_iff _ _ cb.columns]
      · simp only [List.length_drop]
        constructor
        · intro h
          exact ⟨by omega, h⟩
        · intro h
          exact h.2
      · rfl
      · exact hc
    · rw [if_neg hlen]
      constructor
      · intro h
        cases h
      · intro h
        exfalso
        omega
  · intro hok i hi
    unfold cb_fromstring read_time_row at hok ⊢
    dsimp only [] at hok ⊢
    rw [fill_grid_spec vals _ 0 _ (Nat.zero_le _)] at hok ⊢
    dsimp only [] at hok ⊢
    simp only [Nat.zero_add, Nat.sub_zero] at hok ⊢
    by_cases hlen : min vals.length (cb.rows * cb.columns) = cb.rows * cb.columns
    · rw [if_pos hlen] at hok ⊢
      by_cases hd : cb.delta = true
      · rw [if_pos hd] at hok ⊢
        unfold cb_delta_fromstring
        rw [delta_loop_grid]
        dsimp only []
        rw [if_pos ⟨Nat.zero_le i, by omega⟩]
      · rw [if_neg hd] at hok ⊢
        by_cases hdr : vals.drop (cb.rows * cb.columns) = []
        · rw [if_neg (not_not_intro hdr)] at hok ⊢
          dsimp only []
          rw [if_pos ⟨Nat.zero_le i, by omega⟩]
        · rw [if_pos hdr] at hok
          cases hok
    · rw [if_neg hlen] at hok
      cases hok
  · intro hl
    unfold cb_fromstring read_time_row
    dsimp only []
    rw [fill_grid_spec vals _ 0 _ (Nat.zero_le _)]
    dsimp only []
    rw [if_neg (by omega)]
  · intro hl
    unfold cb_fromstring read_time_row
    dsimp only []
    rw [fill_grid_spec vals _ 0 _ (Nat.zero_le _)]
    dsimp only []
    simp only [Nat.zero_add, Nat.sub_zero]
    rw [if_pos (by omega)]
    by_cases hd : cb.delta = true
    · rw [if_pos hd]
      apply except_unit_not_ok
      rw [cb_delta_fromstring_ok_iff _ _ cb.columns]
      · intro hmod
        rw [List.length_drop] at hmod
        rw [show vals.length - cb.rows * cb.columns = 1 from by omega] at hmod
        rw [Nat.mod_eq_of_lt (by omega)] at hmod
        omega
      · rfl
      · exact hc
    · rw [if_neg hd]
      rw [if_pos (fun hnil => by
        have := List.drop_eq_nil_iff.mp hnil
        omega)]
  · intro hd tv ds hds hvl
    unfold cb_fromstring read_time_row
    dsimp only []
    rw [fill_grid_spec _ _ 0 _ (Nat.zero_le _)]
    dsimp only []
    simp only [Nat.zero_add, Nat.sub_zero, List.length_append, List.length_cons]
    rw [if_pos (by omega)]
    rw [hd]
    simp only [if_true]
    rw [show cb.rows * cb.columns = vals.length from hvl.symm, List.drop_left]
    constructor
    · refine (delta_group_replay _ tv ds ?_ ?_).1
      · exact hc
      · exact hds
    · intro c hcc
      refine (delta_group_replay _ tv ds ?_ ?_).2 c ?_
      · exact hc
      · exact hds
      · exact hcc

theorem C9_fromstring_count_witness :
    (cb_fromstring (cb_new 3 1 1 false gex) 9 1
        [Val.fin 1, Val.fin 2, Val.fin 3]).2 = Except.ok () :=
  ((C9_fromstring_count (cb_new 3 1 1 false gex) 9 1
      [Val.fin 1, Val.fin 2, Val.fin 3] (by decide) (by decide)).1
    (by decide)).mpr (by decide)

theorem truncQ_eq_floor (q : ℚ) (h : 0 ≤ q) : truncQ q = ⌊q⌋ := by
  unfold truncQ
  rw [Rat.floor_def]
  exact Int.tdiv_eq_ediv (Rat.num_nonneg.mpr h) (Int.natCast_nonneg _)

theorem truncQ_eq_ceil (q : ℚ) (h : q ≤ 0) : truncQ q = ⌈q⌉ := by
  unfold truncQ
  have h1 : q.num.tdiv q.den = -((-q.num).tdiv q.den) := by
    rw [Int.neg_tdiv, neg_neg]
  have hnn : (0 : Int) ≤ -q.num := by
    have := Rat.num_nonpos.mpr h
    omega
  rw [h1, Int.tdiv_eq_ediv hnn (Int.natCast_nonneg _)]
  have h2 : (-q.num) / (q.den : Int) = ⌊-q⌋ := by
    rw [Rat.floor_def, Rat.neg_num, Rat.neg_den]
  rw [h2, Int.floor_neg, neg_neg]

theorem truncQ_mono (a b : ℚ) (h : a ≤ b) : truncQ a ≤ truncQ b := by
  rcases le_or_lt 0 a with ha | ha
  · rw [truncQ_eq_floor a ha, truncQ_eq_floor b (le_trans ha h)]
    exact Int.floor_mono h
  · rcases le_or_lt b 0 with hb | hb
    · rw [truncQ_eq_ceil a (le_of_lt ha), truncQ_eq_ceil b hb]
      exact Int.ceil_mono h
    · rw [truncQ_eq_ceil a (le_of_lt ha), truncQ_eq_floor b (le_of_lt hb)]
      have h1 : ⌈a⌉ ≤ ⌈(0 : ℚ)⌉ := Int.ceil_mono (le_of_lt ha)
      rw [Int.ceil_zero] at h1
      have h2 : (0 : Int) ≤ ⌊b⌋ := Int.floor_nonneg.mpr (le_of_lt hb)
      omega

theorem tdiv_mono_num (a b d : Int) (hd : 0 < d) (h : a ≤ b) : a.tdiv d ≤ b.tdiv d := by
  rcases le_or_lt 0 a with ha | ha
  · rw [Int.tdiv_eq_ediv ha (le_of_lt hd), Int.tdiv_eq_ediv (le_trans ha h) (le_of_lt hd)]
    exact Int.ediv_le_ediv hd h
  · rcases le_or_lt b 0 with hb | hb
    · have h1 : a.tdiv d = -((-a).tdiv d) := by rw [Int.neg_tdiv, neg_neg]
      have h2 : b.tdiv d = -((-b).tdiv d) := by rw [Int.neg_tdiv, neg_neg]
      rw [h1, h2, Int.tdiv_eq_ediv (by omega) (le_of_lt hd),
        Int.tdiv_eq_ediv (by omega) (le_of_lt hd)]
      have h3 := Int.ediv_le_ediv hd (by omega : -b ≤ -a)
      omega
    · have h1 : a.tdiv d ≤ 0 := by
        have h2 : a.tdiv d = -((-a).tdiv d) := by rw [Int.neg_tdiv, neg_neg]
        rw [h2, Int.tdiv_eq_ediv (by omega) (le_of_lt hd)]
        have h3 : (0 : Int) ≤ (-a) / d := Int.ediv_nonneg (by omega) (le_of_lt hd)
        omega
      have h4 : (0 : Int) ≤ b.tdiv d := by
        rw [Int.tdiv_eq_ediv (le_of_lt hb) (le_of_lt hd)]
        exact Int.ediv_nonneg (le_of_lt hb) (le_of_lt hd)
      omega

theorem row_number_mono (spr : Nat) (hs : 1 ≤ spr) (a b : ℚ) (h : a ≤ b) :
    row_number spr a ≤ row_number spr b := by
  rw [row_number_eq spr hs, row_number_eq spr hs]
  refine tdiv_mono_num _ _ _ (by omega : (0 : Int) < (spr : Int)) ?_
  exact truncQ_mono _ _ ((div_le_div_iff_of_pos_right (by norm_num)).mpr h)
theorem emod_diff_zero (a b : Int) (m : Nat) (ha : 0 ≤ a) (ha2 : a < (m : Int))
    (hb : 0 ≤ b) (hb2 : b < (m : Int)) (h : (a - b) % (m : Int) = 0) : a = b := by
  rcases le_or_lt b a with hc | hc
  · have h1 := Int.emod_eq_of_lt (by omega : (0 : Int) ≤ a - b) (by omega : a - b < (m : Int))
    omega
  · have h4 : (a - b) % (m : Int) = (a - b + m) % (m : Int) := by
      rw [show a - b + (m : Int) = a - b + (m : Int) * 1 from by ring, Int.add_mul_emod_self_left]
    have h5 := Int.emod_eq_of_lt (by omega : (0 : Int) ≤ a - b + m)
      (by omega : a - b + (m : Int) < (m : Int))
    omega

theorem emod_add_left_emod (a b : Int) (m : Nat) :
    (a % (m : Int) + b) % (m : Int) = (a + b) % (m : Int) := by
  conv_rhs => rw [Int.add_emod]
  conv_lhs => rw [Int.add_emod]
  rw [Int.emod_emod_of_dvd _ dvd_rfl]

theorem emod_sub_congr (a b c d : Int) (m : Nat)
    (h1 : a % (m : Int) = c % (m : Int)) (h2 : b % (m : Int) = d % (m : Int)) :
    (a - b) % (m : Int) = (c - d) % (m : Int) := by
  conv_lhs => rw [Int.sub_emod]
  conv_rhs => rw [Int.sub_emod]
  rw [h1, h2]

theorem check_row_accept_inv (cb : CB) (ns : ℚ) (h : (check_row cb ns false).2 ≠ -1) :
    ¬(cur_row_number cb < row_number cb.seconds_per_row ns) ∧
    (row_number cb.seconds_per_row ns - cur_row_number cb).natAbs < cb.rows ∧
    (check_row cb ns false).2 = phys_row cb.rows (row_number cb.seconds_per_row ns) := by
  by_cases hc : cur_row_number cb < row_number cb.seconds_per_row ns ∨
      cb.rows ≤ (row_number cb.seconds_per_row ns - cur_row_number cb).natAbs
  · exfalso
    rw [check_row_reject_eq cb ns false (by simp) hc] at h
    exact h rfl
  · push_neg at hc
    refine ⟨by omega, by omega, ?_⟩
    rw [check_row_accept_eq cb ns false (by omega) (by omega)]

theorem cb_get_accept (cb : CB) (ns : ℚ) (column1 : Int)
    (hcol : 1 ≤ column1 ∧ column1 ≤ (cb.columns : Int))
    (h1 : ¬(cur_row_number cb < row_number cb.seconds_per_row ns))
    (h2 : (row_number cb.seconds_per_row ns - cur_row_number cb).natAbs < cb.rows) :
    cb_get cb ns column1 =
      (cb, Except.ok (some (cb.grid
        ((phys_row cb.rows (row_number cb.seconds_per_row ns) * (cb.columns : Int) +
          (((column1 - 1).toNat : Nat) : Int)).toNat)))) := by
  unfold cb_get
  dsimp only []
  rw [check_row_accept_eq cb ns false h1 h2]
  dsimp only []
  rw [if_neg (not_not_intro hcol), if_pos (by
    have := phys_row_nonneg_total cb.rows (row_number cb.seconds_per_row ns)
    omega)]

theorem range_walk_spec : ∀ (n : Nat) (g : Nat → Val) (rows cols col fuel : Nat)
    (row0 end_row : Int), 0 ≤ row0 → row0 ≤ (rows : Int) → 0 ≤ end_row →
    end_row < (rows : Int) → (end_row - row0) % (rows : Int) = (n : Int) → n < fuel →
    range_walk g rows cols col fuel row0 end_row =
      (List.range (n + 1)).map
        (fun (j : Nat) =>
          g ((((row0 + (j : Int)) % (rows : Int)) * (cols : Int) + (col : Int)).toNat)) := by
  intro n
  induction n with
  | zero =>
    intro g rows cols col fuel row0 end_row h0 h1 h2 h3 hm hf
    cases fuel with
    | zero => omega
    | succ f =>
      rw [range_walk]
      push_cast at hm
      have hrw : (if row0 = (rows : Int) then (0 : Int) else row0) = row0 % (rows : Int) := by
        by_cases hx : row0 = (rows : Int)
        · rw [if_pos hx, hx, Int.emod_self]
        · rw [if_neg hx, Int.emod_eq_of_lt h0 (by omega)]
      rw [hrw]
      have hsub : (row0 % (rows : Int) - end_row) % (rows : Int) =
          (row0 - end_row) % (rows : Int) :=
        emod_sub_congr _ _ _ _ rows (Int.emod_emod_of_dvd _ dvd_rfl) rfl
      have hrow0 : row0 % (rows : Int) = end_row := by
        refine emod_diff_zero _ _ rows (Int.emod_nonneg _ (by omega))
          (Int.emod_lt_of_pos _ (by omega)) h2 h3 ?_
        rw [hsub]
        have hd : (rows : Int) ∣ (end_row - row0) := Int.dvd_of_emod_eq_zero hm
        have hd2 : (rows : Int) ∣ (row0 - end_row) := by
          rw [show row0 - end_row = -(end_row - row0) from by ring]
          exact dvd_neg.mpr hd
        exact Int.emod_eq_zero_of_dvd hd2
      rw [if_pos hrow0]
      rw [show List.range 1 = [0] from rfl]
      simp only [List.map_cons, List.map_nil, Nat.cast_zero, add_zero]
  | succ n ih =>
    intro g rows cols col fuel row0 end_row h0 h1 h2 h3 hm hf
    cases fuel with
    | zero => omega
    | succ f =>
      rw [range_walk]
      push_cast at hm
      have hmlt : ((n : Int) + 1) < (rows : Int) := by
        have := Int.emod_lt_of_pos (end_row - row0) (by omega : (0 : Int) < (rows : Int))
        omega
      have hrw : (if row0 = (rows : Int) then (0 : Int) else row0) = row0 % (rows : Int) := by
        by_cases hx : row0 = (rows : Int)
        · rw [if_pos hx, hx, Int.emod_self]
        · rw [if_neg hx, Int.emod_eq_of_lt h0 (by omega)]
      rw [hrw]
      have hsub : (end_row - row0 % (rows : Int)) % (rows : Int) =
          (end_row - row0) % (rows : Int) :=
        emod_sub_congr _ _ _ _ rows rfl (Int.emod_emod_of_dvd _ dvd_rfl)
      have hne : ¬(row0 % (rows : Int) = end_row) := by
        intro hx
        rw [hx, sub_self, Int.zero_emod] at hsub
        omega
      rw [if_neg hne]
      have hm' : (end_row - (row0 % (rows : Int) + 1)) % (rows : Int) = (n : Int) := by
        rw [show end_row - (row0 % (rows : Int) + 1) = (end_row - row0 % (rows : Int)) - 1
          from by ring]
        rw [Int.sub_emod, hsub, hm,
          Int.emod_eq_of_lt (by omega : (0 : Int) ≤ 1) (by omega : (1 : Int) < (rows : Int))]
        rw [show (n : Int) + 1 - 1 = (n : Int) from by ring,
          Int.emod_eq_of_lt (by omega) (by omega)]
      have hrec := ih g rows cols col f (row0 % (rows : Int) + 1) end_row
        (by have := Int.emod_nonneg row0 (by omega : ((rows : Nat) : Int) ≠ 0); omega)
        (by have := Int.emod_lt_of_pos row0 (by omega : (0 : Int) < (rows : Int)); omega)
        h2 h3 hm' (by omega)
      rw [hrec]
      conv_rhs => rw [List.range_succ_eq_map]
      simp only [List.map_cons, List.map_map, Nat.cast_zero, add_zero]
      congr 1
      refine List.map_congr_left ?_
      intro j hj
      simp only [Function.comp_apply]
      have He : ((row0 % (rows : Int) + 1) + (j : Int)) % (rows : Int) =
          (row0 + ((j : Int) + 1)) % (rows : Int) := by
        rw [show row0 % (rows : Int) + 1 + (j : Int) = row0 % (rows : Int) + (1 + (j : Int))
          from by ring]
        rw [emod_add_left_emod]
        rw [show row0 + (1 + (j : Int)) = row0 + ((j : Int) + 1) from by ring]
      push_cast
      rw [He]

theorem getD_map_range (f : Nat → Val) (n j : Nat) (hj : j < n + 1) :
    ((List.range (n + 1)).map f).getD j Val.nan = f j := by
  rw [List.getD_eq_getElem _ _ (by rw [List.length_map, List.length_range]; exact hj)]
  rw [List.getElem_map, List.getElem_range]

/-- C8: `get_range(column, start_ns, end_ns)` on a valid buffer with an
in-range column reports a contract violation when `end_ns < start_ns`;
otherwise it resolves both endpoints without advancing (the buffer state
is returned unchanged in every case) and yields `nil` if either endpoint
is rejected; otherwise it yields the circular walk of cell values from
the start row to the end row inclusive, of length
`(end_row - start_row) mod rows + 1`, and the `j`-th element equals the
value `get` returns for the `j`-th row-aligned timestamp after
`start_ns`. -/
theorem C8_get_range_semantics (cb : CB) (column1 : Int) (start_ns end_ns : ℚ)
    (hv : cb.valid) (hcol : 1 ≤ column1 ∧ column1 ≤ (cb.columns : Int))
    (hfit : cur_row_number cb < 4294967296) :
    (end_ns < start_ns → cb_get_range cb column1 start_ns end_ns = (cb, Except.error ())) ∧
    (cb_get_range cb column1 start_ns end_ns).1 = cb ∧
    (start_ns ≤ end_ns →
      (((check_row cb start_ns false).2 = -1 ∨ (check_row cb end_ns false).2 = -1) →
        (cb_get_range cb column1 start_ns end_ns).2 = Except.ok Option.none) ∧
      ((check_row cb start_ns false).2 ≠ -1 → (check_row cb end_ns false).2 ≠ -1 →
        ∃ l : List Val,
          (cb_get_range cb column1 start_ns end_ns).2 = Except.ok (some l) ∧
          l.length = (((check_row cb end_ns false).2 - (check_row cb start_ns false).2) %
            (cb.rows : Int)).toNat + 1 ∧
          ∀ j : Nat, j < l.length →
            cb_get cb
              (((row_time cb.seconds_per_row start_ns + (j : Int) * (cb.seconds_per_row : Int)
                : Int) : ℚ) * 1000000000) column1 =
              (cb, Except.ok (some (l.getD j Val.nan))))) := by
  have h2r : 2 ≤ cb.rows := hv.1
  have hs : 1 ≤ cb.seconds_per_row := hv.2.2.1
  have hcur := cur_row_number_ge cb hv
  refine ⟨?_, ?_, ?_⟩
  · intro hlt
    unfold cb_get_range
    dsimp only []
    rw [if_neg (not_not_intro hcol), if_pos hlt]
  · unfold cb_get_range
    dsimp only []
    rw [if_neg (not_not_intro hcol)]
    by_cases hlt : end_ns < start_ns
    · rw [if_pos hlt]
    · rw [if_neg hlt]
      rw [check_row_no_advance cb start_ns]
      by_cases hrej : (check_row cb start_ns false).2 = -1 ∨ (check_row cb end_ns false).2 = -1
      · rw [if_pos hrej]
        dsimp only []
        exact check_row_no_advance cb end_ns
      · rw [if_neg hrej]
        dsimp only []
        exact check_row_no_advance cb end_ns
  · intro hse
    refine ⟨?_, ?_⟩
    · intro hrej
      unfold cb_get_range
      dsimp only []
      rw [if_neg (not_not_intro hcol), if_neg (not_lt.mpr hse)]
      rw [check_row_no_advance cb start_ns]
      rw [if_pos hrej]
    · intro hsr her
      obtain ⟨hno1, habs1, heq1⟩ := check_row_accept_inv cb start_ns hsr
      obtain ⟨hno2, habs2, heq2⟩ := check_row_accept_inv cb end_ns her
      have hmono := row_number_mono cb.seconds_per_row hs start_ns end_ns hse
      have hsn0 : 0 ≤ row_number cb.seconds_per_row start_ns := by omega
      have hen0 : 0 ≤ row_number cb.seconds_per_row end_ns := by omega
      have hsfit : row_number cb.seconds_per_row start_ns < 4294967296 := by omega
      have hefit : row_number cb.seconds_per_row end_ns < 4294967296 := by omega
      have hsphys : (check_row cb start_ns false).2 =
          row_number cb.seconds_per_row start_ns % (cb.rows : Int) := by
        rw [heq1]
        exact phys_row_eq_emod _ _ hsn0 hsfit
      have hephys : (check_row cb end_ns false).2 =
          row_number cb.seconds_per_row end_ns % (cb.rows : Int) := by
        rw [heq2]
        exact phys_row_eq_emod _ _ hen0 hefit
      have hsubm : (row_number cb.seconds_per_row end_ns % (cb.rows : Int) -
          row_number cb.seconds_per_row start_ns % (cb.rows : Int)) % (cb.rows : Int) =
          row_number cb.seconds_per_row end_ns - row_number cb.seconds_per_row start_ns := by
        rw [emod_sub_congr (row_number cb.seconds_per_row end_ns % (cb.rows : Int))
          (row_number cb.seconds_per_row start_ns % (cb.rows : Int))
          (row_number cb.seconds_per_row end_ns)
          (row_number cb.seconds_per_row start_ns) cb.rows
          (Int.emod_emod_of_dvd _ dvd_rfl) (Int.emod_emod_of_dvd _ dvd_rfl)]
        exact Int.emod_eq_of_lt (by omega) (by omega)
      have hn : ((row_number cb.seconds_per_row end_ns -
          row_number cb.seconds_per_row start_ns).toNat : Int) =
          row_number cb.seconds_per_row end_ns - row_number cb.seconds_per_row start_ns :=
        Int.toNat_of_nonneg (by omega)
      have hwalk := range_walk_spec
        (row_number cb.seconds_per_row end_ns - row_number cb.seconds_per_row start_ns).toNat
        cb.grid cb.rows cb.columns ((column1 - 1).toNat) cb.rows
        (row_number cb.seconds_per_row start_ns % (cb.rows : Int))
        (row_number cb.seconds_per_row end_ns % (cb.rows : Int))
        (Int.emod_nonneg _ (by omega))
        (le_of_lt (Int.emod_lt_of_pos _ (by omega)))
        (Int.emod_nonneg _ (by omega))
        (Int.emod_lt_of_pos _ (by omega))
        (by rw [hsubm, hn])
        (by omega)
      unfold cb_get_range
      dsimp only []
      rw [if_neg (not_not_intro hcol), if_neg (not_lt.mpr hse)]
      rw [check_row_no_advance cb start_ns]
      rw [if_neg (not_or.mpr ⟨hsr, her⟩)]
      rw [check_row_no_advance cb end_ns]
      dsimp only []
      rw [hsphys, hephys, hwalk]
      refine ⟨_, rfl, ?_, ?_⟩
      · rw [List.length_map, List.length_range, hsubm]
      · intro j hj
        rw [List.length_map, List.length_range] at hj
        have hjle : (j : Int) ≤ row_number cb.seconds_per_row end_ns -
            row_number cb.seconds_per_row start_ns := by omega
        have hrnj : row_number cb.seconds_per_row
            (((row_time cb.seconds_per_row start_ns + (j : Int) * (cb.seconds_per_row : Int)
              : Int) : ℚ) * 1000000000) =
            row_number cb.seconds_per_row start_ns + (j : Int) := by
          rw [row_number_eq _ hs, ns_of_seconds]
          rw [row_time_of_row_number _ hs start_ns]
          rw [show (cb.seconds_per_row : Int) * row_number cb.seconds_per_row start_ns +
              (j : Int) * (cb.seconds_per_row : Int) =
              (cb.seconds_per_row : Int) * (row_number cb.seconds_per_row start_ns + (j : Int))
            from by ring]
          exact Int.mul_tdiv_cancel_left _ (Int.natCast_ne_zero.mpr (by omega))
        have hacc := cb_get_accept cb
          (((row_time cb.seconds_per_row start_ns + (j : Int) * (cb.seconds_per_row : Int)
            : Int) : ℚ) * 1000000000) column1 hcol
          (by rw [hrnj]; omega) (by rw [hrnj]; omega)
        rw [hrnj] at hacc
        rw [hacc]
        rw [getD_map_range _ _ _ (by omega)]
        have hidx : (row_number cb.seconds_per_row start_ns % (cb.rows : Int) + (j : Int)) %
            (cb.rows : Int) =
            phys_row cb.rows (row_number cb.seconds_per_row start_ns + (j : Int)) := by
          rw [emod_add_left_emod]
          rw [phys_row_eq_emod _ _ (by omega) (by omega)]
          rfl
        rw [hidx]

theorem C8_get_range_semantics_witness :
    (cb_get_range (cb_new 3 1 1 false gex) 1 0 2000000000).1 = cb_new 3 1 1 false gex :=
  (C8_get_range_semantics (cb_new 3 1 1 false gex) 1 0 2000000000
    (by unfold CB.valid; decide) (by decide) (by decide)).2.1
